import Mathlib

/-!
Verification development for the tree-sitter C/C++ frontend of a static
source-code analysis engine (file `frontend_c_cpp.py`).

The frontend ingests parsed syntax trees and derives, per source file, a
list of function models (`FunctionDefinition`), conditional-compilation
block records, and, per project, call sites, uses counts, depths and
reachable sets.

The parser collaborator (tree-sitter) is modelled by the inductive `Node`
below: a node has a kind tag, optional raw text, row and byte positions,
a named-flag, named-field children and the ordered child list.  As in real
tree-sitter trees, field children also appear in the `children` list of the
concrete example trees built further down.

Python recursion in the source is unbounded (the driver catches
`RecursionError` when a tree is too deep); recursive functions over trees
are therefore written with an explicit fuel parameter, and theorems are
stated for every fuel value or for fuel large enough for the concrete tree.
-/

namespace FIC

/-- Python truthiness of an optional string: `None` and `''` are falsy. -/
def truthy : Option String → Bool
  | none => false
  | some s => s ≠ ""

/-- Substring test, modelling Python's `sub in s`. -/
def strContains (s sub : String) : Bool :=
  go s.data sub.data
where
  go : List Char → List Char → Bool
  | l, pat => pat.isPrefixOf l || (match l with
      | [] => false
      | _ :: t => go t pat)

/-- Python `s.startswith(pre)`, over the character list (the byte-based
`String.startsWith` of core does not reduce inside the kernel). -/
def strStartsWith (s pre : String) : Bool :=
  pre.data.isPrefixOf s.data

/-- Python `s.endswith(suffix)`. -/
def strEndsWith (s suffix : String) : Bool :=
  suffix.data.isSuffixOf s.data

/-- Python `s[n:]`. -/
def strDropChars (s : String) (n : Nat) : String :=
  ⟨s.data.drop n⟩

/-- Python `s.replace('&', '')`. -/
def stripAmp (s : String) : String :=
  ⟨s.data.filter (fun c => c ≠ '&')⟩

def splitOnColonsAux : List Char → List Char → List (List Char)
  | [], acc => [acc.reverse]
  | ':' :: ':' :: rest, acc => acc.reverse :: splitOnColonsAux rest []
  | c :: rest, acc => splitOnColonsAux rest (c :: acc)

/-- Python `t.split('::')` (also `t.rsplit('::')`), over the character
list. -/
def splitOnColons (t : String) : List String :=
  (splitOnColonsAux t.data []).map (fun l => ⟨l⟩)

/-- Last `::`-separated component, modelling Python's `t.rsplit('::')[-1]`
(and `t.split('::')[-1]`). -/
def lastComponent (t : String) : String :=
  (splitOnColons t).getLastD ""

/-- Everything before the last `::`, modelling `t.rsplit('::', 1)[0]`. -/
def dropLastComponent (t : String) : String :=
  String.intercalate "::" ((splitOnColons t).dropLast)

/-- Python's `t.split('::', 1)`: split at the first separator only. -/
def splitOnceOnColons (t : String) : List String :=
  match splitOnColons t with
  | [] => []
  | [a] => [a]
  | a :: rest => [a, String.intercalate "::" rest]

/-- Syntax-tree node supplied by the parser collaborator: kind tag, raw
text, start/end rows, start/end byte offsets, tree-sitter named-flag,
named fields and ordered children. -/
inductive Node where
  | mk (kind : String) (text : Option String) (startRow endRow : Nat)
       (byteStart byteEnd : Nat) (named : Bool)
       (fields : List (String × Node)) (children : List Node)

def Node.kind : Node → String
  | .mk k _ _ _ _ _ _ _ _ => k

def Node.text : Node → Option String
  | .mk _ t _ _ _ _ _ _ _ => t

def Node.startRow : Node → Nat
  | .mk _ _ r _ _ _ _ _ _ => r

def Node.endRow : Node → Nat
  | .mk _ _ _ r _ _ _ _ _ => r

def Node.byteStart : Node → Nat
  | .mk _ _ _ _ b _ _ _ _ => b

def Node.byteEnd : Node → Nat
  | .mk _ _ _ _ _ b _ _ _ => b

def Node.named : Node → Bool
  | .mk _ _ _ _ _ _ n _ _ => n

def Node.fields : Node → List (String × Node)
  | .mk _ _ _ _ _ _ _ fs _ => fs

def Node.children : Node → List Node
  | .mk _ _ _ _ _ _ _ _ cs => cs

/-- `node.child_by_field_name(f)`. -/
def Node.childByField (n : Node) (f : String) : Option Node :=
  (n.fields.find? (fun p => p.1 == f)).map (fun p => p.2)

/-- Decoded text of a node, `''` where the source would raise on a
missing text (tree-sitter always supplies text for real nodes). -/
def Node.textStr (n : Node) : String :=
  (n.text).getD ""

/-- The node's text is truthy (present and non-empty). -/
def Node.hasText (n : Node) : Bool :=
  truthy n.text

instance : Inhabited Node := ⟨.mk "" none 0 0 0 0 false [] []⟩

/-! ### Conditional-compilation blocks (`_process_macro_block`) -/

/-- One recorded preprocessor condition (`{'type': ..., 'condition': ...}`). -/
structure MCond where
  ctype : String
  condition : String
  deriving DecidableEq, Repr

/-- One conditional-block record (`{'conditions': ..., 'pos': ...}`);
the source-file field is left to the enclosing file state. -/
structure MacroRecord where
  conditions : List MCond
  lineStart : Nat
  lineEnd : Nat
  deriving DecidableEq, Repr

/-- Reverse the previous condition, as done at the head of
`_process_macro_block` for `#elif` / `#else` branches. -/
def flipLast (cs : List MCond) : List MCond :=
  match cs.getLast? with
  | none => cs
  | some c =>
      cs.dropLast ++
        [{ c with ctype :=
            if c.ctype == "ifdef" then "ifndef"
            else if c.ctype == "ifndef" then "ifdef"
            else "not" }]

/-- `CppSourceCodeFile._process_macro_block`: recursively emit one
record per branch of a `#if`/`#ifdef` chain, following the
`alternative` field.  The `namespace` parameter of the source is unused
by the extraction itself and omitted. -/
def processMacroBlock (fuel : Nat) (macro_ : Node)
    (conditions : List MCond) : List MacroRecord :=
  match fuel with
  | 0 => []
  | fuel + 1 =>
    let conditions := if conditions.isEmpty then conditions else flipLast conditions
    let step : Option (List MCond) :=
      if macro_.kind == "preproc_ifdef" then
        match macro_.childByField "name" with
        | some varName =>
          if truthy varName.text then
            let t := if strStartsWith macro_.textStr "#ifdef" then "ifdef" else "ifndef"
            some (conditions ++ [⟨t, varName.textStr⟩])
          else none
        | none => none
      else if macro_.kind == "preproc_if" || macro_.kind == "preproc_elif" then
        match macro_.childByField "condition" with
        | some cond =>
          if truthy cond.text then some (conditions ++ [⟨"if", cond.textStr⟩]) else none
        | none => none
      else
        some conditions
    match step with
    | none => []
    | some conditions =>
      match macro_.childByField "alternative" with
      | some alt =>
          ⟨conditions, macro_.startRow, alt.startRow⟩ ::
            processMacroBlock fuel alt conditions
      | none =>
          [⟨conditions, macro_.startRow, macro_.endRow⟩]

/-- Concrete `#else` branch node: rows 11–13, no further alternative. -/
def elseNodeX : Node :=
  .mk "preproc_else" (some "#else\nint other;\nint more;") 11 13 120 160 true [] []

/-- Concrete `#ifdef X … #else … #endif` region: `#ifdef` at row 0,
ten guarded lines, `#else` at row 11, `#endif` at row 14. -/
def ifdefNodeX : Node :=
  .mk "preproc_ifdef" (some "#ifdef X\n...\n#else\n...\n#endif") 0 14 0 180 true
    [("name", .mk "identifier" (some "X") 0 0 7 8 true [] []),
     ("alternative", elseNodeX)]
    [elseNodeX]

/-- Two inclusive line ranges are disjoint. -/
def disjointRanges (a b : MacroRecord) : Prop :=
  a.lineEnd < b.lineStart ∨ b.lineEnd < a.lineStart

/-! ### FunctionDefinition -/

/-- State of one `FunctionDefinition` object.  The unused
`function_uses` / `function_depth` attributes of `__init__` are omitted;
`source_file` stands for `parent_source.source_file`. -/
structure FunctionDefinition where
  root : Node
  source_file : String
  namespace_or_class : String
  valid : Bool
  start_line : Nat
  end_line : Nat
  name : String
  complexity : Nat
  icount : Nat
  bbcount : Nat
  arg_names : List String
  arg_types : List String
  return_type : String
  sig : String
  base_callsites : List (String × Nat)
  detailed_callsites : List (String × String)
  var_map : List (String × String)
  depth : Int
  assert_stmts : List (String × Nat × Nat)

instance : Inhabited FunctionDefinition :=
  ⟨⟨default, "", "", true, 1, 1, "", 0, 0, 0, [], [], "", "", [], [], [], -1, []⟩⟩

/-- Field values set by `FunctionDefinition.__init__` before
`_extract_information` runs. -/
def initFD (root : Node) (sourceFile ns : String) : FunctionDefinition :=
  { root := root, source_file := sourceFile, namespace_or_class := ns,
    valid := true, start_line := root.startRow + 1, end_line := root.endRow + 1,
    name := "", complexity := 0, icount := 0, bbcount := 0,
    arg_names := [], arg_types := [], return_type := "", sig := "",
    base_callsites := [], detailed_callsites := [], var_map := [],
    depth := -1, assert_stmts := [] }

/-- Python dict assignment `var_map[k] = v`: the most recent binding wins. -/
def vmInsert (m : List (String × String)) (k v : String) : List (String × String) :=
  (k, v) :: m

/-- Python `var_map.get(k)`. -/
def vmGet (m : List (String × String)) (k : String) : Option String :=
  (m.find? (fun p => p.1 == k)).map (fun p => p.2)

/-- The `branch_nodes` list of `_process_complexity`. -/
def branchNodes : List String :=
  ["if_statement", "switch_statement", "do_statement", "while_statement",
   "for_statement", "for_range_loop", "try_statement", "seh_try_statement",
   "throw_statement", "goto_statement", "co_return_statement",
   "co_yield_statement", "break_statement", "continue_statement", "&&", "||"]

/-- `_traverse_node_complexity`: count branch nodes in the subtree. -/
def traverseNodeComplexity : Nat → Node → Nat
  | 0, _ => 0
  | fuel + 1, n =>
    (if branchNodes.contains n.kind then 1 else 0) +
      (n.children.map (traverseNodeComplexity fuel)).sum

/-- `_traverse_node_instr_count`: count nodes whose kind contains
`statement`. -/
def traverseNodeInstrCount : Nat → Node → Nat
  | 0, _ => 0
  | fuel + 1, n =>
    (if strContains n.kind "statement" then 1 else 0) +
      (n.children.map (traverseNodeInstrCount fuel)).sum

/-- All nodes of a subtree in document (preorder) order; models the
tree-sitter subtree queries and the iterative cursor walk of
`extract_callsites`, which visits every node exactly once in this order. -/
def preorderNodes : Nat → Node → List Node
  | 0, _ => []
  | fuel + 1, n => n :: n.children.flatMap (preorderNodes fuel)

/-- Number of subtree nodes of the given kind (tree-sitter query
`( kind ) @x` capture count). -/
def queryCount (fuel : Nat) (n : Node) (k : String) : Nat :=
  (preorderNodes fuel n).countP (fun m => m.kind == k)

/-- Spec-side formulation of the complexity metric: the number of branch
constructs occurring anywhere in the subtree, each occurrence counted
independently of nesting. -/
def branchOccurrences (fuel : Nat) (n : Node) : Nat :=
  (preorderNodes fuel n).countP (fun m => branchNodes.contains m.kind)

/-- First while-loop of `_extract_pointer_array_from_type`. -/
def countPointerLayers : Nat → Node → Nat × Node
  | 0, n => (0, n)
  | fuel + 1, n =>
    if n.kind == "pointer_declarator" then
      match n.childByField "declarator" with
      | some c => let r := countPointerLayers fuel c; (r.1 + 1, r.2)
      | none => (1, n)
    else (0, n)

/-- Second while-loop of `_extract_pointer_array_from_type`. -/
def countArrayLayers : Nat → Node → Nat × Node
  | 0, n => (0, n)
  | fuel + 1, n =>
    if n.kind == "array_declarator" then
      match n.childByField "declarator" with
      | some c => let r := countArrayLayers fuel c; (r.1 + 1, r.2)
      | none => (1, n)
    else (0, n)

/-- `_extract_pointer_array_from_type`. -/
def extractPointerArrayFromType (fuel : Nat) (n : Node) : Nat × Nat × Node :=
  let p := countPointerLayers fuel n
  let a := countArrayLayers fuel p.2
  (p.1, a.1, a.2)

/-- Declarator-strip loop used for parameters and declarations: descend
through `declarator` fields until one of the five terminal kinds. -/
def paramDeclStrip : Nat → Option Node → Option Node
  | 0, o => o
  | fuel + 1, o =>
    match o with
    | none => none
    | some n =>
      if ["identifier", "qualified_identifier", "pointer_declarator",
          "array_declarator", "reference_declarator"].contains n.kind then some n
      else paramDeclStrip fuel (n.childByField "declarator")

/-- The while-loop of `_extract_information` that walks the declarator
chain isolating the function's identifier and an explicit scope
qualifier; returns `(tmp_name, scope_to_add)`. -/
def declaratorNameWalk : Nat → Option Node → String → String → String × String
  | 0, _, tmpName, scopeToAdd => (tmpName, scopeToAdd)
  | fuel + 1, tmpNode, tmpName, scopeToAdd =>
    match tmpNode with
    | none => (tmpName, scopeToAdd)
    | some n =>
      let tmpName :=
        if n.kind == "reference_declarator" then
          n.children.foldl (fun tn child =>
            if child.kind == "function_declarator" then
              match child.childByField "declarator" with
              | some d => if d.kind == "identifier" then d.textStr else tn
              | none => tn
            else tn) tmpName
        else tmpName
      let scopeToAdd :=
        match n.childByField "scope" with
        | some sc => sc.textStr ++ "::"
        | none => scopeToAdd
      if n.kind == "identifier" then (n.textStr, scopeToAdd)
      else if n.kind == "field_identifier" then (n.textStr, scopeToAdd)
      else
        let tmpName :=
          match n.childByField "name" with
          | some nm => if nm.kind == "identifier" then nm.textStr else tmpName
          | none => tmpName
        declaratorNameWalk fuel (n.childByField "declarator") tmpName scopeToAdd

/-- Ancestor walk of `_extract_information`: prepend the names of
enclosing named classes and namespaces.  `ancestors` lists the parent
chain nearest-first, matching repeated `node.parent` steps. -/
def ancestorScopeWalk (ancestors : List Node) : String :=
  ancestors.foldl (fun full parent =>
    let full :=
      if parent.kind == "class_specifier" then
        match parent.childByField "name" with
        | some nm => nm.textStr ++ "::" ++ full
        | none => full
      else full
    if parent.kind == "namespace_definition" then
      match parent.childByField "name" with
      | some nm => nm.textStr ++ "::" ++ full
      | none => full
    else full) ""

/-- `FunctionDefinition.__init__` followed by `_extract_information`:
builds the function model from a `function_definition` /
`preproc_function_def` node.  Sites where the source would raise on a
node shape tree-sitter never produces (a `function_definition` without a
`declarator` field, a `parameter_declaration` or assert call without the
field the code reads unchecked) are mapped to skipping the item. -/
def mkFunctionDef (fuel : Nat) (ancestors : List Node) (root : Node)
    (sourceFile ns : String) : FunctionDefinition :=
  let base := initFD root sourceFile ns
  if root.kind == "preproc_function_def" then
    match root.childByField "name", root.childByField "parameters",
          root.childByField "value" with
    | some nameNode, some paramNode, some defNode =>
      if truthy nameNode.text && truthy paramNode.text && truthy defNode.text then
        let argNames := (paramNode.children.enum).map (fun ip =>
            if truthy ip.2.text then ip.2.textStr else "arg" ++ toString ip.1)
        { base with
          name := nameNode.textStr
          arg_names := argNames
          arg_types := argNames.map (fun _ => "auto")
          return_type := "auto"
          sig := nameNode.textStr ++ paramNode.textStr
          complexity := 1
          icount := 1
          bbcount := 1 }
      else { base with valid := false }
    | _, _, _ => { base with valid := false }
  else
    match root.childByField "declarator" with
    | none => { base with valid := false }
    | some nameNode =>
      let sig := nameNode.textStr
      -- the `self.name` assignments of this loop are dead (overwritten by
      -- `full_name` below); only the parameter list is retained
      let paramList := nameNode.children.foldl (fun (acc : Option Node) child =>
          if strContains child.kind "identifier" then acc
          else if child.kind == "function_declarator" then
            child.children.foldl (fun acc decl =>
              if strContains decl.kind "identifier" then acc
              else if decl.kind == "parameter_list" then some decl
              else acc) acc
          else if child.kind == "parameter_list" then some child
          else acc) none
      let parentScope := ancestorScopeWalk ancestors
      let w := declaratorNameWalk fuel (root.childByField "declarator") "" ""
      let fullName := if w.1 ≠ "" then parentScope ++ w.2 ++ w.1 else sig
      let name := fullName
      let nsOrClass := if strContains name "::" then dropLastComponent name else ns
      let returnType :=
        match root.childByField "type" with
        | some t => t.textStr
        | none => "void"
      let sig := returnType ++ " " ++ sig
      let pstate : List String × List String × List (String × String) :=
        match paramList with
        | none => ([], [], [])
        | some pl => pl.children.foldl (fun st param =>
            if param.kind == "parameter_declaration" then
              let paramType := param.childByField "type"
              let paramName0 := param.childByField "declarator"
              if paramType.isNone && paramName0.isNone then st
              else
                match paramDeclStrip fuel paramName0, paramType with
                | some pn, some pt =>
                  let r := extractPointerArrayFromType fuel pn
                  let t := pt.textStr ++ String.join (List.replicate r.1 "*") ++
                    String.join (List.replicate r.2.1 "[]")
                  let nm := stripAmp r.2.2.textStr
                  (st.1 ++ [t], st.2.1 ++ [nm], vmInsert st.2.2 nm t)
                | _, _ => st
            else st) ([], [], [])
      let asserts := (preorderNodes fuel root).filterMap (fun ce =>
        if ce.kind == "call_expression" then
          match ce.childByField "function", ce.childByField "arguments" with
          | some fc, some args =>
            if fc.textStr == "assert" then some (args.textStr, ce.startRow, ce.endRow)
            else none
          | _, _ => none
        else none)
      { base with
        name := name
        namespace_or_class := nsOrClass
        sig := sig
        return_type := returnType
        arg_types := pstate.1
        arg_names := pstate.2.1
        var_map := pstate.2.2
        complexity := traverseNodeComplexity fuel root
        icount := traverseNodeInstrCount fuel root
        bbcount := 1 + queryCount fuel root "if_statement" +
          queryCount fuel root "case_statement"
        assert_stmts := asserts }

/-- countP distributes over flatMap. -/
theorem countP_flatMap (l : List Node) (f : Node → List Node) (p : Node → Bool) :
    (l.flatMap f).countP p = (l.map (fun a => (f a).countP p)).sum := by
  induction l with
  | nil => simp
  | cons a t ih => simp [List.flatMap_cons, List.countP_append, ih]

/-- The recursive branch-node counter equals the preorder occurrence
count. -/
theorem traverseNodeComplexity_eq_branchOccurrences (fuel : Nat) (n : Node) :
    traverseNodeComplexity fuel n = branchOccurrences fuel n := by
  induction fuel generalizing n with
  | zero => simp [traverseNodeComplexity, branchOccurrences, preorderNodes]
  | succ fuel ih =>
    simp only [traverseNodeComplexity, branchOccurrences, preorderNodes,
      List.countP_cons, countP_flatMap]
    have hmap : n.children.map (traverseNodeComplexity fuel)
        = n.children.map (fun a =>
            (preorderNodes fuel a).countP (fun m => branchNodes.contains m.kind)) := by
      apply List.map_congr_left
      intro a _
      simpa [branchOccurrences] using ih a
    rw [hmap, Nat.add_comm]

/-! ### Project-wide function lookup (`get_function_node` and its
module-level memo `_function_node_cache`) -/

abbrev CacheKey := String × String × Bool
abbrev Cache := List (CacheKey × FunctionDefinition)

/-- The suffix components tried by the fallback pass of
`get_function_node`: `target.split('::', 1)` under `one_layer_only`,
else the full split. -/
def nameSplitOf (targetName : String) (oneLayerOnly : Bool) : List String :=
  if oneLayerOnly then splitOnceOnColons targetName else splitOnColons targetName

def getFunctionNodeCached (targetName : String)
    (functionList : List FunctionDefinition) (oneLayerOnly : Bool)
    (ns : String) (cache : Cache) : Option FunctionDefinition × Cache :=
  match cache.find? (fun kv => kv.1 == (targetName, ns, oneLayerOnly)) with
  | some kv => (some kv.2, cache)
  | none =>
    match functionList.find? (fun f => targetName == f.name) with
    | some f => (some f, ((targetName, ns, oneLayerOnly), f) :: cache)
    | none =>
      match (if ns ≠ "" then
               functionList.find? (fun f => (ns ++ "::" ++ targetName) == f.name)
             else none) with
      | some f => (some f, ((targetName, ns, oneLayerOnly), f) :: cache)
      | none =>
        if !(strContains targetName "::") then (none, cache)
        else if strStartsWith targetName "std::" then (none, cache)
        else
          match (List.range (nameSplitOf targetName oneLayerOnly).length).findSome?
              (fun count => functionList.find? (fun f =>
                strEndsWith f.name (String.intercalate "::"
                  ((nameSplitOf targetName oneLayerOnly).drop count)))) with
          | some f => (some f, ((targetName, ns, oneLayerOnly), f) :: cache)
          | none => (none, cache)

/-! ### Source units (`CppSourceCodeFile`) -/

/-- One parsed translation unit.  The five type catalogs
(struct/union/enum/typedef/macro-constant) are not modelled: no claim
concerns them. -/
structure CppSourceCodeFile where
  source_file : String
  root : Node
  func_defs : List FunctionDefinition
  macro_blocks : List MacroRecord
  includes : List String

/-- `CppSourceCodeFile.get_function_node`, returning the position of the
matched function in `func_defs` (the source returns the object itself;
the index preserves its identity for the depth cache). -/
def fileGetFunctionNodeIdx (funcDefs : List FunctionDefinition)
    (targetFunctionName : String) (exact : Bool) : Option Nat :=
  match funcDefs.findIdx? (fun func =>
      if func.namespace_or_class ≠ "" then
        (func.namespace_or_class ++ "::" ++ func.name) == targetFunctionName
      else func.name == targetFunctionName) with
  | some i => some i
  | none =>
    if exact then none
    else
      match funcDefs.findIdx? (fun func => func.name == targetFunctionName) with
      | some i => some i
      | none => funcDefs.findIdx? (fun func =>
          func.name == lastComponent targetFunctionName)

/-- Scope-string extension performed by `_process_namespace_node` before
it re-walks the namespace node (anonymous namespaces leave the scope
unchanged). -/
def computeNamespaceExtension (node : Node) (ns : String) : String :=
  match node.childByField "name" with
  | some newNs =>
    if newNs.kind == "nested_namespace_specifier" then
      newNs.children.foldl (fun ns child =>
        if child.named && truthy child.text then
          let ns := ns ++ "::" ++ child.textStr
          if strStartsWith ns "::" then strDropChars ns 2 else ns
        else ns) ns
    else if newNs.kind == "namespace_identifier" then
      if truthy newNs.text then
        let ns := ns ++ "::" ++ newNs.textStr
        if strStartsWith ns "::" then strDropChars ns 2 else ns
      else ns
    else ns
  | none => ns

/-- `CppSourceCodeFile.process_tree`: dispatch on each child's kind,
then recurse unconditionally into every child.  `ancestors` is the
parent chain of `node`, nearest-first. -/
def processTree : Nat → CppSourceCodeFile → List Node → Node → String →
    CppSourceCodeFile
  | 0, st, _, _, _ => st
  | fuel + 1, st, ancestors, node, ns =>
    node.children.foldl (fun st child =>
      let st :=
        if child.kind == "function_definition" ||
            child.kind == "preproc_function_def" then
          let func := mkFunctionDef fuel (node :: ancestors) child st.source_file ns
          if func.valid then { st with func_defs := st.func_defs ++ [func] } else st
        else if child.kind == "namespace_definition" then
          processTree fuel st (node :: ancestors) child
            (computeNamespaceExtension child ns)
        else if ["preproc_ifdef", "preproc_if"].contains child.kind then
          { st with macro_blocks := st.macro_blocks ++ processMacroBlock fuel child [] }
        else st
        -- enum / struct / union / typedef / macro-constant / include
        -- catalog extraction is not modelled (no claim concerns it)
      processTree fuel st (node :: ancestors) child ns) st

/-- `language_specific_process`: initialise the collections and walk the
parsed tree once from the root with the empty scope. -/
def mkCppSourceCodeFile (fuel : Nat) (sourceFile : String) (root : Node) :
    CppSourceCodeFile :=
  processTree fuel
    { source_file := sourceFile, root := root, func_defs := [],
      macro_blocks := [], includes := [] } [] root ""

/-! ### Project model (`CppProject`) -/

/-- Report record for one function; only the fields the claims examine
are retained (`functionName`, `CyclomaticComplexity`, `Callsites`,
`functionUses`, `functionDepth`). -/
structure FuncRecord where
  functionName : String
  cyclomaticComplexity : Nat
  callsites : List (String × String)
  functionUses : Nat
  functionDepth : Int
  deriving DecidableEq, Repr

/-- Modelled from the spec: the `Project` base class (file
`datatypes.py`, outside the analysed sources) owns the source units; the
derived flat `all_functions` index and the memoized
`internal_func_list` live on `CppProject`. -/
structure CppProject where
  source_code_files : List CppSourceCodeFile
  internal_func_list : List FuncRecord

/-- The flat `all_functions` index rebuilt at the start of
`generate_report` by extending with each file's `func_defs`. -/
def allFunctions (p : CppProject) : List FunctionDefinition :=
  p.source_code_files.flatMap (fun sc => sc.func_defs)

/-- `CppProject.get_function_from_name`. -/
def getFunctionFromName (allFuncs : List FunctionDefinition)
    (functionName : String) : Option FunctionDefinition :=
  allFuncs.find? (fun f => f.name == functionName)

/-- The per-pass collection loop of `_find_source_with_func_def`: the
positions `(file index, function index)` of every source unit holding a
match for `name`. -/
def sourcesWithTargetIdx (p : CppProject) (name : String) (exact : Bool) :
    List (Nat × Nat) :=
  p.source_code_files.enum.filterMap (fun fi =>
    (fileGetFunctionNodeIdx fi.2.func_defs name exact).map (fun j => (fi.1, j)))

/-- `CppProject._find_source_with_func_def`: require a unique exact
match, fall back to a unique fuzzy match, otherwise fail. -/
def findSourceWithFuncDef (p : CppProject) (name : String) :
    Option (Nat × Nat) :=
  let pass1 := sourcesWithTargetIdx p name true
  if pass1.length == 1 then pass1.head?
  else
    let pass2 := sourcesWithTargetIdx p name false
    if pass2.length == 1 then pass2.head? else none

/-! ### Call-site extraction -/

/-- A collected call site before finalisation:
`(target name, byte offset, line)`. -/
abbrev CallTriple := String × Nat × Nat

/-- The member name read from the `field` child of a field expression. -/
def fieldFullName (field : Node) : String :=
  if field.kind == "template_method" then
    match field.childByField "name" with
    | some nm => if truthy nm.text then nm.textStr else ""
    | none => ""
  else if truthy field.text then field.textStr else ""

/-- Tail of `_process_field_expr_return_type`: qualify the member name
with the resolved receiver type (unless missing or `void`) and attempt
the project lookup; `oc` is the `(object_type, cache)` pair. -/
def finishFieldExpr (afs : List FunctionDefinition) (fullName : String)
    (oc : Option String × Cache) : (Option String × String) × Cache :=
  if truthy oc.1 then
    let fullName := if oc.1 ≠ some "void" then
        (oc.1.getD "") ++ "::" ++ fullName
      else fullName
    let r := getFunctionNodeCached fullName afs false "" oc.2
    ((r.1.map (fun n => n.return_type), fullName), r.2)
  else ((none, fullName), oc.2)

/-- `_process_field_expr_return_type`: resolve the receiver of a
chained/member access and qualify the member name with its type.  A
nested call receiver (`arg` a call expression) is given up on. -/
def processFieldExprReturnType : Nat → String → List FunctionDefinition →
    List (String × String) → Node → Cache → (Option String × String) × Cache
  | 0, _, _, _, _, cache => ((none, ""), cache)
  | fuel + 1, selfNs, allFuncs, varMap, fieldExpr, cache =>
    match fieldExpr.childByField "argument", fieldExpr.childByField "field" with
    | some arg, some field =>
      if arg.kind == "call_expression" then ((some "", ""), cache)
      else if arg.kind == "field_expression" then
        let r := processFieldExprReturnType fuel selfNs allFuncs varMap arg cache
        finishFieldExpr allFuncs (fieldFullName field) (some r.1.2, r.2)
      else if arg.kind == "this" then
        finishFieldExpr allFuncs (fieldFullName field) (some selfNs, cache)
      else if arg.kind == "identifier" || arg.kind == "qualified_identifier" then
        finishFieldExpr allFuncs (fieldFullName field)
          ((if truthy arg.text then vmGet varMap arg.textStr else none), cache)
      else finishFieldExpr allFuncs (fieldFullName field) (none, cache)
    | _, _ => ((none, ""), cache)

/-- Target-name resolution step of `_process_invoke`: direct calls
resolve via the module lookup (normalising to the matched function's
qualified name, with a second attempt on the `name` field); chained or
method calls go through the field-expression resolution. -/
def invokeTargetName (fuel : Nat) (selfNs : String)
    (allFuncs : List FunctionDefinition) (varMap : List (String × String))
    (func : Node) (cache : Cache) : String × Cache :=
  if ["identifier", "qualified_identifier", "template_function"].contains func.kind
      && truthy func.text then
    match (getFunctionNodeCached func.textStr allFuncs false selfNs cache).1 with
    | some m => (m.name, (getFunctionNodeCached func.textStr allFuncs false selfNs cache).2)
    | none =>
      match func.childByField "name" with
      | some nameNode =>
        if truthy nameNode.text then
          match (getFunctionNodeCached nameNode.textStr allFuncs false selfNs
              (getFunctionNodeCached func.textStr allFuncs false selfNs cache).2).1 with
          | some m2 => (m2.name, (getFunctionNodeCached nameNode.textStr allFuncs false selfNs
              (getFunctionNodeCached func.textStr allFuncs false selfNs cache).2).2)
          | none => (func.textStr, (getFunctionNodeCached nameNode.textStr allFuncs false selfNs
              (getFunctionNodeCached func.textStr allFuncs false selfNs cache).2).2)
        else (func.textStr, (getFunctionNodeCached func.textStr allFuncs false selfNs cache).2)
      | none => (func.textStr, (getFunctionNodeCached func.textStr allFuncs false selfNs cache).2)
  else if func.kind == "field_expression" then
    ((processFieldExprReturnType fuel selfNs allFuncs varMap func cache).1.2,
     (processFieldExprReturnType fuel selfNs allFuncs varMap func cache).2)
  else ("", cache)

/-- In-scope normalisation of `_process_invoke`: an unqualified resolved
target inside a scope is prefixed when the project defines the
scope-qualified name. -/
def inScopeTarget (selfNs : String) (allFuncs : List FunctionDefinition)
    (targetName : String) : String :=
  if !(strContains targetName "::") && selfNs ≠ "" then
    if (allFuncs.find? (fun f => f.name == (selfNs ++ "::" ++ targetName))).isSome then
      selfNs ++ "::" ++ targetName
    else targetName
  else targetName

/-- `_process_invoke`: resolve a call expression's target and record
`(target, byte offset, line)` when a non-empty target was derived. -/
def processInvoke (fuel : Nat) (selfNs : String)
    (allFuncs : List FunctionDefinition) (varMap : List (String × String))
    (expr : Node) (cache : Cache) : List CallTriple × Cache :=
  match expr.childByField "function" with
  | none => ([], cache)
  | some func =>
    if (invokeTargetName fuel selfNs allFuncs varMap func cache).1 ≠ "" then
      ([(inScopeTarget selfNs allFuncs
           (invokeTargetName fuel selfNs allFuncs varMap func cache).1,
         func.byteEnd, func.startRow + 1)],
       (invokeTargetName fuel selfNs allFuncs varMap func cache).2)
    else ([], (invokeTargetName fuel selfNs allFuncs varMap func cache).2)

/-- Tail of the declared-type accumulation: the text contributed by the
(possibly template) type node, `''` when absent. -/
def declTailType (vto : Option Node) : String :=
  match vto with
  | some vto =>
    if vto.kind == "template_type" then
      match vto.childByField "name" with
      | some tn => if truthy tn.text then tn.textStr else ""
      | none => ""
    else if truthy vto.text then vto.textStr else ""
  | none => ""

/-- Declared-type string accumulated by the (single-pass) `while True:`
loop of the `declaration` branch. -/
def declVarType (varTypeObj0 : Node) : String :=
  if varTypeObj0.kind == "qualified_identifier" then
    (match varTypeObj0.childByField "scope" with
     | some sc => if truthy sc.text then sc.textStr else ""
     | none => "") ++ "::" ++ declTailType (varTypeObj0.childByField "name")
  else declTailType (some varTypeObj0)

/-- Implicit default-constructor call sites synthesized for a
declaration whose declarator is a bare identifier of a project-defined
constructible type. -/
def declCallsites (allFuncs : List FunctionDefinition) (varType : String)
    (varName0 stmt : Node) : List CallTriple :=
  if varName0.kind == "identifier" then
    if (getFunctionFromName allFuncs
        (varType ++ "::" ++ lastComponent varType)).isSome then
      [(varType ++ "::" ++ lastComponent varType, stmt.byteEnd, stmt.startRow + 1)]
    else []
  else []

/-- Variable-map registration of the declared variable with its
pointer/array-suffixed type. -/
def declVarMapUpdate (fuel : Nat) (varMap : List (String × String))
    (varType : String) (vn : Node) : List (String × String) :=
  if truthy (extractPointerArrayFromType fuel vn).2.2.text then
    vmInsert varMap (stripAmp (extractPointerArrayFromType fuel vn).2.2.textStr)
      (varType ++
        String.join (List.replicate (extractPointerArrayFromType fuel vn).1 "*") ++
        String.join (List.replicate (extractPointerArrayFromType fuel vn).2.1 "[]"))
  else varMap

/-- The `declaration` branch of `_process_callsites`: synthesize an
implicit default-constructor call for project-defined constructible
types, and record the declared variable's type in the variable map.
When the declarator-strip loop dead-ends, the source returns `[]`,
discarding any constructor call found above. -/
def processDeclaration (fuel : Nat) (allFuncs : List FunctionDefinition)
    (varMap : List (String × String)) (stmt : Node) :
    List CallTriple × List (String × String) :=
  match stmt.childByField "type" with
  | none => ([], varMap)
  | some varTypeObj0 =>
    if ["primitive_type", "sized_type_specifier"].contains varTypeObj0.kind then
      ([], varMap)
    else
      match stmt.childByField "declarator" with
      | none => ([], varMap)
      | some varName0 =>
        if !(truthy varName0.text) then ([], varMap)
        else
          match paramDeclStrip fuel (some varName0) with
          | none => ([], varMap)
          | some vn =>
            (declCallsites allFuncs (declVarType varTypeObj0) varName0 stmt,
             declVarMapUpdate fuel varMap (declVarType varTypeObj0) vn)

/-- `_process_callsites`: dispatch one node. -/
def processCallsitesNode (fuel : Nat) (selfNs : String)
    (allFuncs : List FunctionDefinition) (stmt : Node)
    (varMap : List (String × String)) (cache : Cache) :
    List CallTriple × List (String × String) × Cache :=
  if stmt.kind == "call_expression" then
    ((processInvoke fuel selfNs allFuncs varMap stmt cache).1, varMap,
     (processInvoke fuel selfNs allFuncs varMap stmt cache).2)
  else if stmt.kind == "new_expression" then
    match stmt.childByField "type" with
    | some ctrType =>
      if truthy ctrType.text then
        ([(ctrType.textStr ++ "::" ++ lastComponent ctrType.textStr,
           stmt.byteEnd, stmt.startRow + 1)], varMap, cache)
      else ([], varMap, cache)
    | none => ([], varMap, cache)
  else if stmt.kind == "declaration" then
    ((processDeclaration fuel allFuncs varMap stmt).1,
     (processDeclaration fuel allFuncs varMap stmt).2, cache)
  else ([], varMap, cache)

/-- The iterative cursor walk of `extract_callsites`: every subtree node
is processed exactly once, in preorder. -/
def collectCallsites : Nat → String → List FunctionDefinition → Node →
    List (String × String) → Cache →
    List CallTriple × List (String × String) × Cache
  | 0, _, _, _, varMap, cache => ([], varMap, cache)
  | fuel + 1, selfNs, allFuncs, node, varMap, cache =>
    node.children.foldl (fun acc child =>
      (acc.1 ++ (collectCallsites fuel selfNs allFuncs child acc.2.1 acc.2.2).1,
       (collectCallsites fuel selfNs allFuncs child acc.2.1 acc.2.2).2.1,
       (collectCallsites fuel selfNs allFuncs child acc.2.1 acc.2.2).2.2))
      (processCallsitesNode (fuel + 1) selfNs allFuncs node varMap cache)

/-- The `if not self.base_callsites:` block of
`FunctionDefinition.extract_callsites`: lazily compute, deduplicate and
offset-sort the call sites.  The Python
`sorted(set(callsites), key=lambda x: x[1])` is modelled by
deduplicating the triples and insertion-sorting by byte offset (the set
iteration order, unspecified in Python, only affects the relative order
of distinct triples with equal offsets). -/
def extractCallsitesBase (fuel : Nat) (allFuncs : List FunctionDefinition)
    (f : FunctionDefinition) (cache : Cache) : FunctionDefinition × Cache :=
  if f.base_callsites.isEmpty then
    let c := collectCallsites fuel f.namespace_or_class allFuncs f.root f.var_map cache
    let callsites := List.insertionSort (fun a b : CallTriple => a.2.1 ≤ b.2.1) c.1.dedup
    ({ f with
        base_callsites := callsites.map (fun x => (x.1, x.2.2))
        var_map := c.2.1 }, c.2.2)
  else (f, cache)

/-- The `if not self.detailed_callsites:` block of `extract_callsites`. -/
def extractCallsitesDetailed (f : FunctionDefinition) : FunctionDefinition :=
  if f.detailed_callsites.isEmpty then
    { f with detailed_callsites := f.base_callsites.map (fun cs =>
        (f.source_file ++ ":" ++ toString cs.2 ++ ",1", cs.1)) }
  else f

def extractCallsites (fuel : Nat) (allFuncs : List FunctionDefinition)
    (f : FunctionDefinition) (cache : Cache) : FunctionDefinition × Cache :=
  let fc := extractCallsitesBase fuel allFuncs f cache
  (extractCallsitesDetailed fc.1, fc.2)

/-! ### Uses, depth, report generation, reachability -/

instance : Inhabited CppSourceCodeFile :=
  ⟨⟨"", default, [], [], []⟩⟩

/-- The function object at position `(fi, fj)` of the project. -/
def getFunc (p : CppProject) (fi fj : Nat) : FunctionDefinition :=
  ((p.source_code_files.getD fi default).func_defs.getD fj default)

/-- Replace the function object at position `(fi, fj)` (in-place
mutation of the Python object). -/
def setFunc (p : CppProject) (fi fj : Nat) (f : FunctionDefinition) :
    CppProject :=
  let sc := p.source_code_files.getD fi default
  let sc := { sc with func_defs := sc.func_defs.set fj f }
  { p with source_code_files := p.source_code_files.set fi sc }

/-- `function.depth = d` for the function at `(fi, fj)`. -/
def setFuncDepth (p : CppProject) (fi fj : Nat) (d : Int) : CppProject :=
  setFunc p fi fj { getFunc p fi fj with depth := d }

/-- `CppProject._calculate_function_uses`: number of project functions
with a call site whose target equals, or ends with, the target name. -/
def calculateFunctionUses (p : CppProject) (targetName : String) : Nat :=
  (p.source_code_files.map (fun sourceFile =>
    sourceFile.func_defs.countP (fun function =>
      function.base_callsites.any (fun callsite =>
        callsite.1 == targetName || strEndsWith callsite.1 targetName)))).sum

/-- Inner `_recursive_function_depth` of
`CppProject._calculate_function_depth`: memoized via the `depth` field,
cycle-guarded via the shared `visited` list. -/
def recursiveFunctionDepth : Nat → CppProject → Nat → Nat → List String →
    Int × CppProject × List String
  | 0, p, _, _, visited => (0, p, visited)
  | fuel + 1, p, fi, fj, visited =>
    let function := getFunc p fi fj
    if function.depth ≠ -1 then (function.depth, p, visited)
    else
      let callsites := function.base_callsites
      if callsites.isEmpty then (0, p, visited)
      else
        let visited := visited ++ [function.name]
        callsites.foldl (fun (acc : Int × CppProject × List String) callsite =>
          let depth := acc.1
          let p := acc.2.1
          let visited := acc.2.2
          match findSourceWithFuncDef p callsite.1 with
          | some tij =>
            if visited.contains (getFunc p tij.1 tij.2).name then
              (max depth 1, p, visited)
            else
              let r := recursiveFunctionDepth fuel p tij.1 tij.2 visited
              let depth := max depth (r.1 + 1)
              (depth, setFuncDepth r.2.1 fi fj depth, r.2.2)
          | none => (depth, p, visited ++ [callsite.1])) (0, p, visited)

/-- `CppProject._calculate_function_depth`. -/
def calculateFunctionDepth (fuel : Nat) (p : CppProject) (fi fj : Nat) :
    Int × CppProject :=
  let r := recursiveFunctionDepth fuel p fi fj []
  (r.1, r.2.1)

/-- `CppProject.generate_report`: rebuild `all_functions`, then (unless
the record list is memoized) process every function in order — extract
call sites, compute uses and depth, assemble its record — memoize the
record list, and finish by clearing the module-level resolution cache.
The yaml-only report fields (source/type listings, header files,
harness metadata) are not modelled. -/
def generateReport (fuel : Nat) (p : CppProject) (cache : Cache) :
    CppProject × List FuncRecord × Cache :=
  if p.internal_func_list.isEmpty then
    let idxs := (p.source_code_files.enum).flatMap (fun fi =>
      (List.range fi.2.func_defs.length).map (fun j => (fi.1, j)))
    let step := idxs.foldl (fun (acc : CppProject × List FuncRecord × Cache) ij =>
      let p := acc.1
      let funcList := acc.2.1
      let cache := acc.2.2
      let ec := extractCallsites fuel (allFunctions p) (getFunc p ij.1 ij.2) cache
      let func := ec.1
      let cache := ec.2
      let p := setFunc p ij.1 ij.2 func
      let funcUses := calculateFunctionUses p func.name
      let dp := calculateFunctionDepth fuel p ij.1 ij.2
      let p := dp.2
      let fr : FuncRecord :=
        { functionName := func.name
          cyclomaticComplexity := func.complexity
          callsites := func.detailed_callsites
          functionUses := funcUses
          functionDepth := dp.1 }
      (p, funcList ++ [fr], cache)) (p, [], cache)
    let p2 := { step.1 with internal_func_list := step.2.1 }
    (p2, step.2.1, ([] : Cache))
  else
    (p, p.internal_func_list, ([] : Cache))

/-- `visited_functions.add(x)` on a Python set, modelled as an
insertion-ordered duplicate-free list. -/
def addVisited (visited : List String) (x : String) : List String :=
  if visited.contains x then visited else visited ++ [x]

/-- `CppProject.get_reachable_functions`: depth-first collection of all
names transitively reachable from an entry point; the entry name itself
is always added, unresolved names are collected but not expanded. -/
def getReachableFunctions : Nat → CppProject → String → List String → Cache →
    List String × Cache
  | 0, _, _, visited, cache => (visited, cache)
  | fuel + 1, p, function, visited, cache =>
    if function == "" then (visited, cache)
    else
      -- the source first resolves the unit (`_find_source_with_func_def`)
      -- and the function node (module lookup, which may grow the cache),
      -- then adds the entry to the visited set, then bails out unless
      -- both resolutions succeeded
      match (getFunctionNodeCached function (allFunctions p) false "" cache).1,
            findSourceWithFuncDef p function with
      | some fn, some _ =>
        fn.base_callsites.foldl (fun (acc : List String × Cache) cs =>
          if acc.1.contains cs.1 then acc
          else getReachableFunctions fuel p cs.1 acc.1 acc.2)
          (addVisited visited function,
            (getFunctionNodeCached function (allFunctions p) false "" cache).2)
      | _, _ =>
        (addVisited visited function,
          (getFunctionNodeCached function (allFunctions p) false "" cache).2)

/-! ### Concrete example trees

The two-function project `void a(){ b(); }  void b(){ a(); }` in one
file `f.c`: `a` on row 0, `b` on row 1, with tree shapes as produced by
tree-sitter (field children repeated in the child lists). -/

def identCallB : Node := .mk "identifier" (some "b") 0 0 10 11 true [] []
def argListA : Node := .mk "argument_list" (some "()") 0 0 11 13 true [] []
def callExprB : Node := .mk "call_expression" (some "b()") 0 0 10 13 true
  [("function", identCallB), ("arguments", argListA)] [identCallB, argListA]
def exprStmtA : Node := .mk "expression_statement" (some "b();") 0 0 10 14 true
  [] [callExprB]
def bodyA : Node := .mk "compound_statement" (some "{ b(); }") 0 0 8 16 true
  [] [exprStmtA]
def identA : Node := .mk "identifier" (some "a") 0 0 5 6 true [] []
def paramsA : Node := .mk "parameter_list" (some "()") 0 0 6 8 true [] []
def declA : Node := .mk "function_declarator" (some "a()") 0 0 5 8 true
  [("declarator", identA), ("parameters", paramsA)] [identA, paramsA]
def typeVoidA : Node := .mk "primitive_type" (some "void") 0 0 0 4 true [] []
def funcA : Node := .mk "function_definition" (some "void a(){ b(); }") 0 0 0 16 true
  [("type", typeVoidA), ("declarator", declA), ("body", bodyA)]
  [typeVoidA, declA, bodyA]

def identCallA : Node := .mk "identifier" (some "a") 1 1 27 28 true [] []
def argListB : Node := .mk "argument_list" (some "()") 1 1 28 30 true [] []
def callExprA : Node := .mk "call_expression" (some "a()") 1 1 27 30 true
  [("function", identCallA), ("arguments", argListB)] [identCallA, argListB]
def exprStmtB : Node := .mk "expression_statement" (some "a();") 1 1 27 31 true
  [] [callExprA]
def bodyB : Node := .mk "compound_statement" (some "{ a(); }") 1 1 25 33 true
  [] [exprStmtB]
def identB : Node := .mk "identifier" (some "b") 1 1 22 23 true [] []
def paramsB : Node := .mk "parameter_list" (some "()") 1 1 23 25 true [] []
def declB : Node := .mk "function_declarator" (some "b()") 1 1 22 25 true
  [("declarator", identB), ("parameters", paramsB)] [identB, paramsB]
def typeVoidB : Node := .mk "primitive_type" (some "void") 1 1 17 21 true [] []
def funcB : Node := .mk "function_definition" (some "void b(){ a(); }") 1 1 17 33 true
  [("type", typeVoidB), ("declarator", declB), ("body", bodyB)]
  [typeVoidB, declB, bodyB]

def exampleTU : Node := .mk "translation_unit"
  (some "void a(){ b(); }\nvoid b(){ a(); }") 0 1 0 34 true [] [funcA, funcB]

def exampleFile : CppSourceCodeFile := mkCppSourceCodeFile 32 "f.c" exampleTU

def exampleProject : CppProject := ⟨[exampleFile], []⟩

/-- The report run on the mutual-recursion project. -/
def exampleReport : List FuncRecord := (generateReport 32 exampleProject []).2.1

/-- `void c(){ b(); b(); }` on row 2: two calls to the same unresolved
target on one line, at byte offsets 44 and 49. -/
def identCallB1 : Node := .mk "identifier" (some "b") 2 2 44 45 true [] []
def argList1 : Node := .mk "argument_list" (some "()") 2 2 45 47 true [] []
def callExpr1 : Node := .mk "call_expression" (some "b()") 2 2 44 47 true
  [("function", identCallB1), ("arguments", argList1)] [identCallB1, argList1]
def exprStmt1 : Node := .mk "expression_statement" (some "b();") 2 2 44 48 true
  [] [callExpr1]
def identCallB2 : Node := .mk "identifier" (some "b") 2 2 49 50 true [] []
def argList2 : Node := .mk "argument_list" (some "()") 2 2 50 52 true [] []
def callExpr2 : Node := .mk "call_expression" (some "b()") 2 2 49 52 true
  [("function", identCallB2), ("arguments", argList2)] [identCallB2, argList2]
def exprStmt2 : Node := .mk "expression_statement" (some "b();") 2 2 49 53 true
  [] [callExpr2]
def bodyC : Node := .mk "compound_statement" (some "{ b(); b(); }") 2 2 42 55 true
  [] [exprStmt1, exprStmt2]
def identC : Node := .mk "identifier" (some "c") 2 2 39 40 true [] []
def paramsC : Node := .mk "parameter_list" (some "()") 2 2 40 42 true [] []
def declC : Node := .mk "function_declarator" (some "c()") 2 2 39 42 true
  [("declarator", identC), ("parameters", paramsC)] [identC, paramsC]
def typeVoidC : Node := .mk "primitive_type" (some "void") 2 2 34 38 true [] []
def funcC : Node := .mk "function_definition" (some "void c(){ b(); b(); }") 2 2 34 55 true
  [("type", typeVoidC), ("declarator", declC), ("body", bodyC)]
  [typeVoidC, declC, bodyC]

/-- A project function literally named `std::vector` (as produced by a
project defining `namespace std { … vector … }`). -/
def stdVectorFunc : FunctionDefinition :=
  { mkFunctionDef 16 [] funcA "f.c" "" with
    name := "std::vector"
    namespace_or_class := "std" }

/-- A project function whose qualified name merely ends in `::vector`. -/
def mylibVectorFunc : FunctionDefinition :=
  { mkFunctionDef 16 [] funcA "f.c" "" with
    name := "mylib::vector"
    namespace_or_class := "mylib" }

/-! ### Claim theorems -/

/-- C4 (counterexample): processing `#ifdef X <10 lines> #else <lines>
#endif` yields the two records `([ifdef X], 0–11)` and
`([ifndef X], 11–13)`; both contain the `#else` row 11, so their line
ranges are not disjoint as claimed. -/
theorem c4_counterexample :
    processMacroBlock 9 ifdefNodeX [] =
      [⟨[⟨"ifdef", "X"⟩], 0, 11⟩, ⟨[⟨"ifndef", "X"⟩], 11, 13⟩] ∧
    ¬ disjointRanges ⟨[⟨"ifdef", "X"⟩], 0, 11⟩ ⟨[⟨"ifndef", "X"⟩], 11, 13⟩ := by
  refine ⟨by decide, ?_⟩
  simp [disjointRanges]

/-- C4 (amended): processing `#ifdef X <lines> #else <lines> #endif`
produces exactly two conditional-block records, with condition lists
`[ifdef X]` and `[ifndef X]`; their line ranges are contiguous — the
first ends exactly at the row where the second begins (the `#else` row)
— overlapping only at that boundary row, rather than being disjoint. -/
theorem c4_theorem :
    ∃ r1 r2, processMacroBlock 9 ifdefNodeX [] = [r1, r2] ∧
      r1.conditions = [⟨"ifdef", "X"⟩] ∧ r2.conditions = [⟨"ifndef", "X"⟩] ∧
      r1.lineEnd = r2.lineStart ∧ r1.lineStart < r2.lineStart ∧
      r2.lineStart ≤ r2.lineEnd :=
  ⟨⟨[⟨"ifdef", "X"⟩], 0, 11⟩, ⟨[⟨"ifndef", "X"⟩], 11, 13⟩,
    by decide, rfl, rfl, rfl, by decide, by decide⟩

/-- The complexity field of a non-macro function model is the branch
counter applied to its subtree. -/
theorem mkFunctionDef_complexity (fuel : Nat) (ancestors : List Node)
    (root : Node) (sourceFile ns : String)
    (h1 : root.kind ≠ "preproc_function_def")
    (h2 : (root.childByField "declarator").isSome) :
    (mkFunctionDef fuel ancestors root sourceFile ns).complexity =
      traverseNodeComplexity fuel root := by
  obtain ⟨d, hd⟩ := Option.isSome_iff_exists.mp h2
  have hb : (root.kind == "preproc_function_def") = false := by
    simp [h1]
  unfold mkFunctionDef
  rw [hb, hd]
  simp [initFD]

/-- C1 (amended): for every function model extracted from a non-macro
function definition, the complexity score equals the number of branch
constructs (`if`, `switch`, loops, `try`, `throw`, `goto`, coroutine
return/yield, `break`, `continue`, `&&`, `||`) occurring in the
function's subtree, each occurrence counted independently of nesting —
with no `1 +` offset, so `complexity(F) ≥ 0` and a branchless function
has complexity 0. -/
theorem c1_theorem (fuel : Nat) (ancestors : List Node) (root : Node)
    (sourceFile ns : String)
    (h1 : root.kind ≠ "preproc_function_def")
    (h2 : (root.childByField "declarator").isSome) :
    (mkFunctionDef fuel ancestors root sourceFile ns).complexity =
      branchOccurrences fuel root := by
  rw [mkFunctionDef_complexity fuel ancestors root sourceFile ns h1 h2]
  exact traverseNodeComplexity_eq_branchOccurrences fuel root

/-- C1 (witness): the theorem applied to the concrete branchless
function `void a(){ b(); }`. -/
theorem c1_theorem_witness :
    (funcA.kind ≠ "preproc_function_def" ∧
      (funcA.childByField "declarator").isSome) ∧
    (mkFunctionDef 16 [] funcA "f.c" "").complexity = branchOccurrences 16 funcA :=
  ⟨⟨by decide, by decide⟩, c1_theorem 16 [] funcA "f.c" "" (by decide) (by decide)⟩

/-- C1 (counterexample): the branchless function `void a(){ b(); }` has
complexity 0, refuting both `complexity = 1 + (branch count)` (which
would give 1) and the claimed bound `complexity ≥ 1`. -/
theorem c1_counterexample :
    (mkFunctionDef 16 [] funcA "f.c" "").complexity = 0 ∧
    branchOccurrences 16 funcA = 0 ∧
    (mkFunctionDef 16 [] funcA "f.c" "").complexity ≠
      1 + branchOccurrences 16 funcA ∧
    ¬ (1 ≤ (mkFunctionDef 16 [] funcA "f.c" "").complexity) := by
  refine ⟨by decide, by decide, by decide, by decide⟩

/-- C2 (counterexample): on the project `void a(){ b(); }  void b(){
a(); }` the generated report records depth 2 for `b`, refuting
`depth(b) == 1`. -/
theorem c2_counterexample :
    ((exampleReport.find? (fun r => r.functionName == "b")).map
      (fun r => r.functionDepth)) = some 2 ∧ (2 : Int) ≠ 1 := by
  refine ⟨by decide, by decide⟩

/-- C2 (amended): on the mutual-recursion project the depth computation
terminates and the report records depth(a) = 1 — when `a`'s depth is
computed its callee `b` has not yet had its call sites extracted, so `b`
contributes 0 + 1 — and depth(b) = 2, computed afterwards from `a`'s
memoized depth 1. -/
theorem c2_theorem :
    exampleReport.map (fun r => (r.functionName, r.functionDepth)) =
      [("a", 1), ("b", 2)] := by decide

/-- C3 (counterexample): in `void c(){ b(); b(); }` the two calls to `b`
on one line survive deduplication (their byte offsets differ), so the
recorded `(target, line)` call sites contain a duplicate pair. -/
theorem c3_counterexample :
    (extractCallsites 16 [] (mkFunctionDef 16 [] funcC "f.c" "") []).1.base_callsites =
      [("b", 3), ("b", 3)] ∧
    ¬ ((extractCallsites 16 [] (mkFunctionDef 16 [] funcC "f.c" "") []).1.base_callsites).Nodup := by
  refine ⟨by decide, by decide⟩

/-- Deriving the detailed list never changes the base list. -/
theorem extractCallsitesDetailed_base (f : FunctionDefinition) :
    (extractCallsitesDetailed f).base_callsites = f.base_callsites := by
  unfold extractCallsitesDetailed
  split <;> rfl

/-- On an uncached function, the base step records the sorted
deduplicated projection of the collected triples. -/
theorem extractCallsitesBase_of_empty (fuel : Nat)
    (allFuncs : List FunctionDefinition) (f : FunctionDefinition)
    (cache : Cache) (h : f.base_callsites = []) :
    (extractCallsitesBase fuel allFuncs f cache).1.base_callsites =
      (List.insertionSort (fun a b : CallTriple => a.2.1 ≤ b.2.1)
        (collectCallsites fuel f.namespace_or_class allFuncs f.root
          f.var_map cache).1.dedup).map (fun x => (x.1, x.2.2)) := by
  unfold extractCallsitesBase
  rw [h]
  rfl

instance callTripleLETotal :
    IsTotal CallTriple (fun a b => a.2.1 ≤ b.2.1) :=
  ⟨fun a b => Nat.le_total a.2.1 b.2.1⟩

instance callTripleLETrans :
    IsTrans CallTriple (fun a b => a.2.1 ≤ b.2.1) :=
  ⟨fun _ _ _ => Nat.le_trans⟩

/-- C3 (amended): after call-site extraction the recorded call-site
triples are sorted in non-decreasing byte-offset order and contain no
duplicate `(target, offset, line)` triples; `base_callsites` is their
`(target, line)` projection, in which duplicate `(target, line)` pairs
remain possible when the byte offsets differ. -/
theorem c3_theorem (fuel : Nat) (allFuncs : List FunctionDefinition)
    (f : FunctionDefinition) (cache : Cache)
    (h : f.base_callsites = []) :
    ∃ ts : List CallTriple,
      (extractCallsites fuel allFuncs f cache).1.base_callsites =
        ts.map (fun x => (x.1, x.2.2)) ∧
      ts.Pairwise (fun a b => a.2.1 ≤ b.2.1) ∧ ts.Nodup := by
  refine ⟨List.insertionSort (fun a b : CallTriple => a.2.1 ≤ b.2.1)
    (collectCallsites fuel f.namespace_or_class allFuncs f.root f.var_map cache).1.dedup,
    ?_, ?_, ?_⟩
  · show (extractCallsitesDetailed
        (extractCallsitesBase fuel allFuncs f cache).1).base_callsites = _
    rw [extractCallsitesDetailed_base, extractCallsitesBase_of_empty fuel allFuncs f cache h]
  · exact List.sorted_insertionSort _ _
  · exact (List.perm_insertionSort _ _).nodup_iff.mpr (List.nodup_dedup _)

/-- C3 (witness): the sorted-and-triple-deduplicated shape applied to
the concrete function `void c(){ b(); b(); }`. -/
theorem c3_theorem_witness :
    (mkFunctionDef 16 [] funcC "f.c" "").base_callsites = [] ∧
    (∃ ts : List CallTriple,
      (extractCallsites 16 [] (mkFunctionDef 16 [] funcC "f.c" "") []).1.base_callsites =
        ts.map (fun x => (x.1, x.2.2)) ∧
      ts.Pairwise (fun a b => a.2.1 ≤ b.2.1) ∧ ts.Nodup) :=
  ⟨by decide, c3_theorem 16 [] (mkFunctionDef 16 [] funcC "f.c" "") [] (by decide)⟩

/-- C5 (counterexample): the lookup target `std::vector` does resolve to
a project function when one is literally named `std::vector` — the exact
match precedes the `std::` guard — refuting "returns no project
function" in full generality. -/
theorem c5_counterexample :
    ((getFunctionNodeCached "std::vector" [stdVectorFunc] false "" []).1.map
      (fun f => f.name)) = some "std::vector" := by decide

/-- C5 (amended): with a fresh cache, a lookup of `std::vector` returns
no project function unless one is named exactly `std::vector` (or
`ns::std::vector` for the lookup namespace): the `std::` scope guard
disables the suffix-matching fallback, so a project function whose
qualified name merely ends in `::vector` is never returned. -/
theorem c5_theorem (functionList : List FunctionDefinition) (ol : Bool)
    (ns : String)
    (h1 : ∀ f ∈ functionList, f.name ≠ "std::vector")
    (h2 : ∀ f ∈ functionList, f.name ≠ ns ++ "::" ++ "std::vector") :
    (getFunctionNodeCached "std::vector" functionList ol ns []).1 = none := by
  have e1 : functionList.find? (fun f => "std::vector" == f.name) = none := by
    rw [List.find?_eq_none]
    intro f hf
    simp only [beq_iff_eq]
    exact fun hc => h1 f hf hc.symm
  have e2 : functionList.find? (fun f => (ns ++ "::" ++ "std::vector") == f.name) = none := by
    rw [List.find?_eq_none]
    intro f hf
    simp only [beq_iff_eq]
    exact fun hc => h2 f hf hc.symm
  unfold getFunctionNodeCached
  simp only [List.find?_nil, e1, e2, ite_self]
  rfl

/-- C5 (witness): the amended theorem applied to a concrete project
whose only function is named `mylib::vector` (ending in `::vector`). -/
theorem c5_theorem_witness :
    (∀ f ∈ [mylibVectorFunc], f.name ≠ "std::vector") ∧
    (∀ f ∈ [mylibVectorFunc], f.name ≠ "" ++ "::" ++ "std::vector") ∧
    (getFunctionNodeCached "std::vector" [mylibVectorFunc] false "" []).1 = none :=
  ⟨by decide, by decide,
    c5_theorem [mylibVectorFunc] false "" (by decide) (by decide)⟩

theorem length_filterMap_eq_length_filter {α β : Type} (f : α → Option β)
    (l : List α) :
    (l.filterMap f).length = (l.filter (fun a => (f a).isSome)).length := by
  induction l with
  | nil => rfl
  | cons a t ih =>
    cases h : f a <;> simp [List.filterMap_cons, h, List.filter_cons, ih]

/-- The per-pass match-collection length equals the number of source
units holding a match. -/
theorem sourcesWithTargetIdx_length (p : CppProject) (name : String)
    (exact : Bool) :
    (sourcesWithTargetIdx p name exact).length =
      (p.source_code_files.filter (fun sc =>
        (fileGetFunctionNodeIdx sc.func_defs name exact).isSome)).length := by
  unfold sourcesWithTargetIdx
  rw [length_filterMap_eq_length_filter]
  rw [← List.countP_eq_length_filter, ← List.countP_eq_length_filter]
  have hiso : ∀ fi : Nat × CppSourceCodeFile,
      ((fileGetFunctionNodeIdx fi.2.func_defs name exact).map
        (fun j => (fi.1, j))).isSome
        = (fileGetFunctionNodeIdx fi.2.func_defs name exact).isSome := by
    intro fi
    cases fileGetFunctionNodeIdx fi.2.func_defs name exact <;> rfl
  simp only [hiso]
  conv_rhs => rw [← List.enum_map_snd p.source_code_files]
  rw [List.countP_map]
  rfl

/-- C6: source lookup first requires exactly one source unit with an
exact match and returns it; with zero or several exact matches it falls
back to suffix (fuzzy) matching and likewise requires a unique matching
unit; if the fuzzy pass is also non-unique (zero or several units) the
lookup returns no result rather than guessing. -/
theorem c6_theorem (p : CppProject) (name : String) :
    ((p.source_code_files.filter (fun sc =>
        (fileGetFunctionNodeIdx sc.func_defs name true).isSome)).length = 1 →
      findSourceWithFuncDef p name = (sourcesWithTargetIdx p name true).head? ∧
      (findSourceWithFuncDef p name).isSome) ∧
    ((p.source_code_files.filter (fun sc =>
        (fileGetFunctionNodeIdx sc.func_defs name true).isSome)).length ≠ 1 →
      (p.source_code_files.filter (fun sc =>
        (fileGetFunctionNodeIdx sc.func_defs name false).isSome)).length = 1 →
      findSourceWithFuncDef p name = (sourcesWithTargetIdx p name false).head? ∧
      (findSourceWithFuncDef p name).isSome) ∧
    ((p.source_code_files.filter (fun sc =>
        (fileGetFunctionNodeIdx sc.func_defs name true).isSome)).length ≠ 1 →
      (p.source_code_files.filter (fun sc =>
        (fileGetFunctionNodeIdx sc.func_defs name false).isSome)).length ≠ 1 →
      findSourceWithFuncDef p name = none) := by
  have hl1 := sourcesWithTargetIdx_length p name true
  have hl2 := sourcesWithTargetIdx_length p name false
  refine ⟨?_, ?_, ?_⟩
  · intro h
    rw [← hl1] at h
    simp only [findSourceWithFuncDef, h]
    constructor
    · rfl
    · match hv : sourcesWithTargetIdx p name true with
      | [] => rw [hv] at h; simp at h
      | x :: _ => simp
  · intro h1 h2
    rw [← hl1] at h1
    rw [← hl2] at h2
    have e : findSourceWithFuncDef p name = (sourcesWithTargetIdx p name false).head? := by
      simp only [findSourceWithFuncDef, beq_iff_eq, h1, h2, if_false, if_true]
    refine ⟨e, ?_⟩
    rw [e]
    match hv : sourcesWithTargetIdx p name false with
    | [] => rw [hv] at h2; simp at h2
    | x :: _ => simp
  · intro h1 h2
    rw [← hl1] at h1
    rw [← hl2] at h2
    simp only [findSourceWithFuncDef, beq_iff_eq, h1, h2, if_false]

/-- C6 (witness): on the two-function example project, exactly one
source unit exactly matches `b`, and the lookup returns it. -/
theorem c6_theorem_witness :
    (exampleProject.source_code_files.filter (fun sc =>
      (fileGetFunctionNodeIdx sc.func_defs "b" true).isSome)).length = 1 ∧
    findSourceWithFuncDef exampleProject "b" = some (0, 1) :=
  ⟨by decide, by
    have h := (c6_theorem exampleProject "b").1 (by decide)
    rw [h.1]
    decide⟩

/-- A subtree possibly contains a function-definition or macro-function
node (`true` when fuel is exhausted, conservatively). -/
def hasFuncNode : Nat → Node → Bool
  | 0, _ => true
  | fuel + 1, n =>
    (n.kind == "function_definition" || n.kind == "preproc_function_def") ||
      n.children.any (hasFuncNode fuel)

/-- Walking a childless node changes nothing. -/
theorem processTree_leaf (fuel : Nat) (st : CppSourceCodeFile)
    (anc : List Node) (n : Node) (ns : String) (h : n.children = []) :
    processTree fuel st anc n ns = st := by
  cases fuel with
  | zero => rfl
  | succ fuel => rw [processTree, h]; rfl

/-- A fold preserves any invariant its step function preserves. -/
theorem foldl_invariant {α β : Type} (P : β → Prop) (f : β → α → β) :
    ∀ (l : List α) (b : β), P b → (∀ x, P x → ∀ a ∈ l, P (f x a)) →
      P (l.foldl f b)
  | [], _, hb, _ => hb
  | a :: t, b, hb, hstep =>
    foldl_invariant P f t (f b a) (hstep b hb a (List.mem_cons_self a t))
      (fun x hx a' ha' => hstep x hx a' (List.mem_cons_of_mem a ha'))

/-- The tree walk never changes the file name of the unit state. -/
theorem processTree_source_file :
    ∀ (fuel : Nat) (st : CppSourceCodeFile) (anc : List Node) (node : Node)
      (ns : String),
      (processTree fuel st anc node ns).source_file = st.source_file := by
  intro fuel
  induction fuel with
  | zero => intro st anc node ns; rfl
  | succ fuel ih =>
    intro st anc node ns
    rw [processTree]
    refine foldl_invariant (fun x => x.source_file = st.source_file) _
      node.children st rfl ?_
    intro x hx c _
    simp only
    rw [ih]
    split
    · split
      · simpa using hx
      · exact hx
    · split
      · rw [ih]; exact hx
      · split
        · simpa using hx
        · exact hx

/-- Walking a subtree whose children are free of function-definition
nodes leaves the collected `func_defs` unchanged. -/
theorem processTree_funcFree :
    ∀ (fuel : Nat) (st : CppSourceCodeFile) (anc : List Node) (node : Node)
      (ns : String),
      node.children.all (fun c => !hasFuncNode fuel c) = true →
      (processTree (fuel + 1) st anc node ns).func_defs = st.func_defs := by
  intro fuel
  induction fuel with
  | zero =>
    intro st anc node ns h
    match hc : node.children with
    | [] => rw [processTree, hc]; rfl
    | c :: t =>
      rw [hc] at h
      simp [hasFuncNode] at h
  | succ fuel ih =>
    intro st anc node ns h
    rw [processTree]
    refine foldl_invariant (fun x => x.func_defs = st.func_defs) _
      node.children st rfl ?_
    intro st' hst' c hc
    have hcf : hasFuncNode (fuel + 1) c = false := by
      have hx := List.all_eq_true.mp h c hc
      simpa using hx
    rw [hasFuncNode] at hcf
    rcases Bool.or_eq_false_iff.mp hcf with ⟨hk, hany⟩
    have hkind1 : (c.kind == "function_definition") = false :=
      (Bool.or_eq_false_iff.mp hk).1
    have hkind2 : (c.kind == "preproc_function_def") = false :=
      (Bool.or_eq_false_iff.mp hk).2
    have hch : c.children.all (fun x => !hasFuncNode fuel x) = true := by
      rw [List.all_eq_true]
      intro x hx
      simp only [Bool.not_eq_true']
      by_contra hcx
      have hat : c.children.any (hasFuncNode fuel) = true :=
        List.any_eq_true.mpr ⟨x, hx, by simpa using hcx⟩
      rw [hat] at hany
      cases hany
    simp only
    rw [ih _ _ _ _ hch]
    rw [hkind1, hkind2]
    simp only [Bool.or_self, Bool.false_eq_true, if_false]
    cases hb : (c.kind == "namespace_definition") with
    | true =>
      simp only [if_true]
      rw [ih _ _ _ _ hch, hst']
    | false =>
      simp only [Bool.false_eq_true, if_false]
      cases hb2 : (["preproc_ifdef", "preproc_if"].contains c.kind) with
      | true => simpa using hst'
      | false => simpa using hst'

/-- For a `function_definition` node carrying a declarator, the
extracted model is valid (only macro functions can be invalid). -/
theorem mkFunctionDef_valid (fuel : Nat) (anc : List Node) (F : Node)
    (src ns : String) (h1 : F.kind = "function_definition")
    (h2 : (F.childByField "declarator").isSome) :
    (mkFunctionDef fuel anc F src ns).valid = true := by
  obtain ⟨d, hd⟩ := Option.isSome_iff_exists.mp h2
  have hb : (F.kind == "preproc_function_def") = false := by simp [h1]
  unfold mkFunctionDef
  rw [hb, hd]
  simp [initFD]

/-- The extracted model keeps the defining node as its `root`. -/
theorem mkFunctionDef_root (fuel : Nat) (anc : List Node) (F : Node)
    (src ns : String) (h1 : F.kind = "function_definition")
    (h2 : (F.childByField "declarator").isSome) :
    (mkFunctionDef fuel anc F src ns).root = F := by
  obtain ⟨d, hd⟩ := Option.isSome_iff_exists.mp h2
  have hb : (F.kind == "preproc_function_def") = false := by simp [h1]
  unfold mkFunctionDef
  rw [hb, hd]
  simp [initFD]

/-- The tree wrapping one definition node `F` inside
`namespace ns { … }`. -/
def nsIdentC9 : Node := .mk "namespace_identifier" (some "ns") 0 0 10 12 true [] []
def nsKeywordC9 : Node := .mk "namespace" (some "namespace") 0 0 0 9 false [] []
def c9DeclList (F : Node) : Node :=
  .mk "declaration_list" (some "{ ... }") 0 2 13 40 true [] [F]
def c9Namespace (F : Node) : Node :=
  .mk "namespace_definition" (some "namespace ns { ... }") 0 2 0 40 true
    [("name", nsIdentC9)] [nsKeywordC9, nsIdentC9, c9DeclList F]
def c9TU (F : Node) : Node :=
  .mk "translation_unit" (some "namespace ns { ... }") 0 2 0 40 true [] [c9Namespace F]
def c9File (F : Node) : CppSourceCodeFile :=
  { source_file := "f.cc", root := c9TU F, func_defs := [],
    macro_blocks := [], includes := [] }

/-- C9: a (valid) function definition sitting in the body of a named
namespace block is processed twice by the single tree walk — once via
the namespace handler with the `::`-extended scope `ns` and once via the
unconditional child recursion with the outer scope — so the file's
function-definition list receives exactly two entries for that one
definition, both carrying it as their `root` node. -/
theorem c9_theorem (fuel : Nat) (F : Node)
    (h1 : F.kind = "function_definition")
    (h2 : (F.childByField "declarator").isSome)
    (h3 : F.children.all (fun c => !hasFuncNode fuel c) = true) :
    (processTree (fuel + 4) (c9File F) [] (c9TU F) "").func_defs =
      [mkFunctionDef (fuel + 1) [c9DeclList F, c9Namespace F, c9TU F] F "f.cc" "ns",
       mkFunctionDef (fuel + 1) [c9DeclList F, c9Namespace F, c9TU F] F "f.cc" ""] ∧
    (mkFunctionDef (fuel + 1) [c9DeclList F, c9Namespace F, c9TU F] F "f.cc" "ns").root = F ∧
    (mkFunctionDef (fuel + 1) [c9DeclList F, c9Namespace F, c9TU F] F "f.cc" "").root = F := by
  have hfree : ∀ (st : CppSourceCodeFile) (anc : List Node) (ns : String),
      (processTree (fuel + 1) st anc F ns).func_defs = st.func_defs :=
    fun st anc ns => processTree_funcFree fuel st anc F ns h3
  -- the declaration list appends exactly one model of F
  have hdecl : ∀ (st : CppSourceCodeFile) (A : List Node) (nsx : String),
      st.source_file = "f.cc" →
      (processTree (fuel + 1 + 1) st A (c9DeclList F) nsx).func_defs =
        st.func_defs ++
          [mkFunctionDef (fuel + 1) (c9DeclList F :: A) F "f.cc" nsx] := by
    intro st A nsx hsf
    rw [processTree]
    rw [show (c9DeclList F).children = [F] from rfl]
    simp only [List.foldl_cons, List.foldl_nil]
    rw [hfree]
    rw [show (F.kind == "function_definition") = true from by simp [h1]]
    simp only [Bool.true_or, if_true]
    rw [mkFunctionDef_valid (fuel + 1) (c9DeclList F :: A) F st.source_file nsx h1 h2]
    simp only [if_true, hsf]
  -- the namespace node contributes exactly one model of F per walk
  have hns : ∀ (st : CppSourceCodeFile) (A : List Node) (nsx : String),
      st.source_file = "f.cc" →
      (processTree (fuel + 1 + 1 + 1) st A (c9Namespace F) nsx).func_defs =
        st.func_defs ++
          [mkFunctionDef (fuel + 1) (c9DeclList F :: c9Namespace F :: A) F "f.cc" nsx] := by
    intro st A nsx hsf
    rw [processTree]
    rw [show (c9Namespace F).children = [nsKeywordC9, nsIdentC9, c9DeclList F] from rfl]
    simp only [List.foldl_cons, List.foldl_nil]
    simp only [show (nsKeywordC9.kind == "function_definition") = false from rfl,
      show (nsKeywordC9.kind == "preproc_function_def") = false from rfl,
      show (nsKeywordC9.kind == "namespace_definition") = false from rfl,
      show (["preproc_ifdef", "preproc_if"].contains nsKeywordC9.kind) = false from rfl,
      show (nsIdentC9.kind == "function_definition") = false from rfl,
      show (nsIdentC9.kind == "preproc_function_def") = false from rfl,
      show (nsIdentC9.kind == "namespace_definition") = false from rfl,
      show (["preproc_ifdef", "preproc_if"].contains nsIdentC9.kind) = false from rfl,
      show ((c9DeclList F).kind == "function_definition") = false from rfl,
      show ((c9DeclList F).kind == "preproc_function_def") = false from rfl,
      show ((c9DeclList F).kind == "namespace_definition") = false from rfl,
      show (["preproc_ifdef", "preproc_if"].contains (c9DeclList F).kind) = false from rfl,
      Bool.or_self, Bool.false_eq_true, if_false]
    rw [processTree_leaf (fuel + 1 + 1) st (c9Namespace F :: A) nsKeywordC9 nsx rfl]
    rw [processTree_leaf (fuel + 1 + 1) st (c9Namespace F :: A) nsIdentC9 nsx rfl]
    exact hdecl st (c9Namespace F :: A) nsx hsf
  constructor
  · show (processTree (fuel + 1 + 1 + 1 + 1) (c9File F) [] (c9TU F) "").func_defs = _
    rw [processTree]
    rw [show (c9TU F).children = [c9Namespace F] from rfl]
    simp only [List.foldl_cons, List.foldl_nil]
    simp only [show ((c9Namespace F).kind == "function_definition") = false from rfl,
      show ((c9Namespace F).kind == "preproc_function_def") = false from rfl,
      show ((c9Namespace F).kind == "namespace_definition") = true from rfl,
      Bool.or_self, Bool.false_eq_true, if_false, if_true]
    rw [show computeNamespaceExtension (c9Namespace F) "" = "ns" from rfl]
    have hST2sf : (processTree (fuel + 1 + 1 + 1) (c9File F) (c9TU F :: [])
        (c9Namespace F) "ns").source_file = "f.cc" := by
      rw [processTree_source_file]
      rfl
    rw [hns _ (c9TU F :: []) "" hST2sf]
    rw [hns (c9File F) (c9TU F :: []) "ns" rfl]
    rfl
  · exact ⟨mkFunctionDef_root _ _ _ _ _ h1 h2, mkFunctionDef_root _ _ _ _ _ h1 h2⟩

/-- C9 (witness): the theorem applied to the concrete function
definition `void a(){ b(); }` placed inside `namespace ns { … }`. -/
theorem c9_theorem_witness :
    (funcA.kind = "function_definition" ∧
      (funcA.childByField "declarator").isSome ∧
      funcA.children.all (fun c => !hasFuncNode 8 c) = true) ∧
    (processTree 12 (c9File funcA) [] (c9TU funcA) "").func_defs =
      [mkFunctionDef 9 [c9DeclList funcA, c9Namespace funcA, c9TU funcA] funcA "f.cc" "ns",
       mkFunctionDef 9 [c9DeclList funcA, c9Namespace funcA, c9TU funcA] funcA "f.cc" ""] :=
  ⟨⟨rfl, by decide, by decide⟩,
    (c9_theorem 8 funcA rfl (by decide) (by decide)).1⟩

/-- The reachable-set walk only ever grows the visited set. -/
theorem getReachableFunctions_mono :
    ∀ (fuel : Nat) (p : CppProject) (function : String)
      (visited : List String) (cache : Cache) (x : String),
      x ∈ visited → x ∈ (getReachableFunctions fuel p function visited cache).1 := by
  intro fuel
  induction fuel with
  | zero => intro p function visited cache x hx; exact hx
  | succ fuel ih =>
    intro p function visited cache x hx
    rw [getReachableFunctions]
    have hadd : x ∈ addVisited visited function := by
      unfold addVisited
      split
      · exact hx
      · exact List.mem_append_left _ hx
    split
    · exact hx
    · split
      · refine foldl_invariant (fun acc : List String × Cache => x ∈ acc.1) _ _ _ hadd ?_
        intro acc hacc cs _
        split
        · exact hacc
        · exact ih p cs.1 acc.1 acc.2 x hacc
      · exact hadd

/-- C10: for every non-empty entry-point name, the set returned by
`get_reachable_functions` contains the entry name itself — it is added
before any resolution outcome is inspected — and when no project
function with that name can be located via the module-level lookup, the
returned set is exactly the singleton of the entry name. -/
theorem c10_theorem (fuel : Nat) (p : CppProject) (entry : String)
    (cache : Cache) (h : entry ≠ "") :
    entry ∈ (getReachableFunctions (fuel + 1) p entry [] cache).1 ∧
    ((getFunctionNodeCached entry (allFunctions p) false "" cache).1 = none →
      (getReachableFunctions (fuel + 1) p entry [] cache).1 = [entry]) := by
  have he : (entry == "") = false := by simp [h]
  constructor
  · rw [getReachableFunctions, he, if_neg Bool.false_ne_true]
    have hadd : entry ∈ addVisited [] entry := by
      unfold addVisited
      simp
    split
    · refine foldl_invariant (fun acc : List String × Cache => entry ∈ acc.1) _ _ _ hadd ?_
      intro acc hacc cs _
      split
      · exact hacc
      · exact getReachableFunctions_mono fuel p cs.1 acc.1 acc.2 entry hacc
    · exact hadd
  · intro hn
    rw [getReachableFunctions, he, if_neg Bool.false_ne_true, hn]
    rfl

/-- C10 (witness): the theorem applied to the empty project and entry
name `main`, which no lookup can locate. -/
theorem c10_theorem_witness :
    ("main" : String) ≠ "" ∧
    (getFunctionNodeCached "main" (allFunctions ⟨[], []⟩) false "" []).1 = none ∧
    "main" ∈ (getReachableFunctions 6 (⟨[], []⟩ : CppProject) "main" [] []).1 ∧
    (getReachableFunctions 6 (⟨[], []⟩ : CppProject) "main" [] []).1 = ["main"] := by
  have h := c10_theorem 5 (⟨[], []⟩ : CppProject) "main" [] (by decide)
  exact ⟨by decide, rfl, h.1, h.2 rfl⟩

/-! ### C7: idempotence of call-site extraction

`extract_callsites` recomputes only when the cached base list is empty;
on real parser output a recomputation collects an empty list again, so
the second invocation returns the lists of the first unchanged.  The
well-formedness conditions below capture what tree-sitter guarantees:
every node carries non-empty text, and a `template_method` node always
has a named `name` field. -/

/-- Well-formedness of parser output. -/
inductive WFNode : Node → Prop where
  | mk : ∀ n : Node, truthy n.text = true →
      (n.kind = "template_method" →
        ∃ nm, n.childByField "name" = some nm ∧ truthy nm.text = true) →
      (∀ c ∈ n.children, WFNode c) →
      (∀ p ∈ n.fields, WFNode p.2) →
      WFNode n

theorem WFNode.text_truthy {n : Node} (h : WFNode n) : truthy n.text = true := by
  cases h with
  | mk _ ht _ _ _ => exact ht

theorem WFNode.template {n : Node} (h : WFNode n)
    (hk : n.kind = "template_method") :
    ∃ nm, n.childByField "name" = some nm ∧ truthy nm.text = true := by
  cases h with
  | mk _ _ htm _ _ => exact htm hk

theorem WFNode.child {n c : Node} (h : WFNode n) (hc : c ∈ n.children) :
    WFNode c := by
  cases h with
  | mk _ _ _ hch _ => exact hch c hc

theorem WFNode.fieldChild {n m : Node} {fname : String} (h : WFNode n)
    (hm : n.childByField fname = some m) : WFNode m := by
  cases h with
  | mk _ _ _ _ hf =>
    unfold Node.childByField at hm
    cases hfind : n.fields.find? (fun p => p.1 == fname) with
    | none => rw [hfind] at hm; cases hm
    | some p =>
      rw [hfind] at hm
      have hpm : p.2 = m := Option.some.inj hm
      rw [← hpm]
      exact hf p (List.mem_of_find?_eq_some hfind)

/-- Executable well-formedness check (sound approximation with fuel). -/
def wfCheck : Nat → Node → Bool
  | 0, _ => false
  | fuel + 1, n =>
    truthy n.text &&
    (if n.kind == "template_method" then
       match n.childByField "name" with
       | some nm => truthy nm.text
       | none => false
     else true) &&
    n.children.all (wfCheck fuel) &&
    n.fields.all (fun p => wfCheck fuel p.2)

theorem wfCheck_sound : ∀ (fuel : Nat) (n : Node),
    wfCheck fuel n = true → WFNode n := by
  intro fuel
  induction fuel with
  | zero => intro n h; cases h
  | succ fuel ih =>
    intro n h
    rw [wfCheck] at h
    simp only [Bool.and_eq_true, List.all_eq_true] at h
    obtain ⟨⟨⟨ht, htm⟩, hch⟩, hf⟩ := h
    refine ⟨n, ht, ?_, fun c hc => ih c (hch c hc), fun p hp => ih p.2 (hf p hp)⟩
    intro hk
    rw [hk] at htm
    simp only [beq_self_eq_true, if_true] at htm
    cases hnm : n.childByField "name" with
    | none => rw [hnm] at htm; cases htm
    | some nm => rw [hnm] at htm; exact ⟨nm, rfl, htm⟩

/-- Non-empty text of a well-formed node. -/
theorem textStr_ne_empty {n : Node} (h : truthy n.text = true) :
    n.textStr ≠ "" := by
  unfold Node.textStr
  cases ht : n.text with
  | none => rw [ht] at h; cases h
  | some s =>
    rw [ht] at h
    simp only [truthy] at h
    simpa using of_decide_eq_true h

theorem append_sep_ne_empty (a b : String) : (a ++ "::" ++ b) ≠ "" := by
  intro h
  have hd := congrArg String.data h
  rw [String.data_append, String.data_append] at hd
  rw [show ("::" : String).data = [':', ':'] from rfl] at hd
  simp at hd

/-- Every project function carries a non-empty qualified name. -/
def NamesWF (afs : List FunctionDefinition) : Prop :=
  ∀ g ∈ afs, g.name ≠ ""

/-- Every cached resolution carries a non-empty qualified name. -/
def CacheWF (c : Cache) : Prop :=
  ∀ kv ∈ c, kv.2.name ≠ ""

/-- A lookup only returns functions with non-empty names. -/
theorem getFunctionNodeCached_name_wf (afs : List FunctionDefinition)
    (c : Cache) (hN : NamesWF afs) (hC : CacheWF c) (target ns : String)
    (ol : Bool) :
    ∀ g, (getFunctionNodeCached target afs ol ns c).1 = some g →
      g.name ≠ "" := by
  intro g hg
  unfold getFunctionNodeCached at hg
  split at hg
  next kv heq =>
    have hg' : some kv.2 = some g := hg
    rw [← Option.some.inj hg']
    exact hC kv (List.mem_of_find?_eq_some heq)
  next =>
    split at hg
    next g1 heq1 =>
      have hg' : some g1 = some g := hg
      rw [← Option.some.inj hg']
      exact hN g1 (List.mem_of_find?_eq_some heq1)
    next =>
      split at hg
      next g2 heq2 =>
        have hg' : some g2 = some g := hg
        rw [← Option.some.inj hg']
        have hmem : g2 ∈ afs := by
          split at heq2
          · exact List.mem_of_find?_eq_some heq2
          · cases heq2
        exact hN g2 hmem
      next =>
        split at hg
        · simp at hg
        · split at hg
          · simp at hg
          · split at hg
            next g3 heq3 =>
              have hg' : some g3 = some g := hg
              rw [← Option.some.inj hg']
              obtain ⟨count, _, hfind⟩ := List.exists_of_findSome?_eq_some heq3
              exact hN g3 (List.mem_of_find?_eq_some hfind)
            next => simp at hg

/-- A lookup only ever caches functions with non-empty names. -/
theorem getFunctionNodeCached_cache_wf (afs : List FunctionDefinition)
    (c : Cache) (hN : NamesWF afs) (hC : CacheWF c) (target ns : String)
    (ol : Bool) :
    CacheWF (getFunctionNodeCached target afs ol ns c).2 := by
  intro kv hkv
  unfold getFunctionNodeCached at hkv
  split at hkv
  next kv1 heq => exact hC kv hkv
  next =>
    split at hkv
    next g1 heq1 =>
      rcases List.mem_cons.mp hkv with h | h
      · rw [h]
        exact hN g1 (List.mem_of_find?_eq_some heq1)
      · exact hC kv h
    next =>
      split at hkv
      next g2 heq2 =>
        rcases List.mem_cons.mp hkv with h | h
        · rw [h]
          have hmem : g2 ∈ afs := by
            split at heq2
            · exact List.mem_of_find?_eq_some heq2
            · cases heq2
          exact hN g2 hmem
        · exact hC kv h
      next =>
        split at hkv
        · exact hC kv hkv
        · split at hkv
          · exact hC kv hkv
          · split at hkv
            next g3 heq3 =>
              rcases List.mem_cons.mp hkv with h | h
              · rw [h]
                obtain ⟨count, _, hfind⟩ := List.exists_of_findSome?_eq_some heq3
                exact hN g3 (List.mem_of_find?_eq_some hfind)
              · exact hC kv h
            next => exact hC kv hkv

/-- The member name of a well-formed field node is non-empty. -/
theorem fieldFullName_ne_empty {field : Node} (h : WFNode field) :
    fieldFullName field ≠ "" := by
  unfold fieldFullName
  split
  next hk =>
    obtain ⟨nm, hnm, ht⟩ := h.template (by simpa using hk)
    rw [hnm]
    show (if truthy nm.text = true then nm.textStr else "") ≠ ""
    rw [if_pos ht]
    exact textStr_ne_empty ht
  next hk =>
    rw [if_pos h.text_truthy]
    exact textStr_ne_empty h.text_truthy

/-- `finishFieldExpr` preserves cache well-formedness. -/
theorem finishFieldExpr_cache_wf (afs : List FunctionDefinition)
    (fullName : String) (oc : Option String × Cache) (hN : NamesWF afs)
    (hC : CacheWF oc.2) : CacheWF (finishFieldExpr afs fullName oc).2 := by
  unfold finishFieldExpr
  split
  · exact getFunctionNodeCached_cache_wf afs oc.2 hN hC _ _ _
  · exact hC

/-- `finishFieldExpr` keeps a non-empty member name non-empty. -/
theorem finishFieldExpr_name_ne (afs : List FunctionDefinition)
    (fullName : String) (oc : Option String × Cache)
    (h : fullName ≠ "") : (finishFieldExpr afs fullName oc).1.2 ≠ "" := by
  unfold finishFieldExpr
  split
  · show (if oc.1 ≠ some "void" then (oc.1.getD "") ++ "::" ++ fullName
      else fullName) ≠ ""
    split
    · exact append_sep_ne_empty _ _
    · exact h
  · exact h

/-- Field-expression resolution preserves cache well-formedness. -/
theorem processFieldExprReturnType_cache_wf :
    ∀ (fuel : Nat) (selfNs : String) (afs : List FunctionDefinition)
      (vm : List (String × String)) (fe : Node) (c : Cache),
      NamesWF afs → CacheWF c →
      CacheWF (processFieldExprReturnType fuel selfNs afs vm fe c).2 := by
  intro fuel
  induction fuel with
  | zero => intro _ _ _ _ c hN hC; exact hC
  | succ fuel ih =>
    intro selfNs afs vm fe c hN hC
    rw [processFieldExprReturnType]
    split
    next arg field =>
      split
      · exact hC
      · split
        · exact finishFieldExpr_cache_wf _ _ _ hN (ih _ _ _ _ _ hN hC)
        · split
          · exact finishFieldExpr_cache_wf _ _ _ hN hC
          · split
            · exact finishFieldExpr_cache_wf _ _ _ hN hC
            · exact finishFieldExpr_cache_wf _ _ _ hN hC
    next => exact hC

/-- With fuel left, a non-nested-call field expression of a well-formed
tree resolves to a non-empty dotted name. -/
theorem processFieldExprReturnType_ne_empty (fuel : Nat) (selfNs : String)
    (afs : List FunctionDefinition) (vm : List (String × String))
    (fe : Node) (c : Cache) {arg field : Node}
    (ha : fe.childByField "argument" = some arg)
    (hf : fe.childByField "field" = some field)
    (hwf : WFNode fe)
    (hnc : (arg.kind == "call_expression") = false) :
    (processFieldExprReturnType (fuel + 1) selfNs afs vm fe c).1.2 ≠ "" := by
  have hfwf : WFNode field := hwf.fieldChild hf
  have hne := fieldFullName_ne_empty hfwf
  rw [processFieldExprReturnType, ha, hf]
  simp only [hnc, Bool.false_eq_true, if_false]
  split
  · exact finishFieldExpr_name_ne _ _ _ hne
  · split
    · exact finishFieldExpr_name_ne _ _ _ hne
    · split
      · exact finishFieldExpr_name_ne _ _ _ hne
      · exact finishFieldExpr_name_ne _ _ _ hne

/-- Structural criterion: on well-formed input, does `_process_invoke`
derive a non-empty target for this `function` child?  Independent of the
variable map and the resolution cache. -/
def funcYields (func : Node) : Bool :=
  if ["identifier", "qualified_identifier", "template_function"].contains func.kind then
    true
  else if func.kind == "field_expression" then
    match func.childByField "argument", func.childByField "field" with
    | some arg, some _ => !(arg.kind == "call_expression")
    | _, _ => false
  else false

/-- Structural criterion: does `_process_invoke` record a call site for
this call expression on well-formed input? -/
def invokeYields (expr : Node) : Bool :=
  match expr.childByField "function" with
  | none => false
  | some func => funcYields func

/-- Target resolution preserves cache well-formedness. -/
theorem invokeTargetName_cache_wf (fuel : Nat) (selfNs : String)
    (afs : List FunctionDefinition) (vm : List (String × String))
    (func : Node) (c : Cache) (hN : NamesWF afs) (hC : CacheWF c) :
    CacheWF (invokeTargetName fuel selfNs afs vm func c).2 := by
  unfold invokeTargetName
  split
  · split
    · exact getFunctionNodeCached_cache_wf afs c hN hC _ _ _
    · split
      · split
        · split
          · exact getFunctionNodeCached_cache_wf afs _ hN
              (getFunctionNodeCached_cache_wf afs c hN hC _ _ _) _ _ _
          · exact getFunctionNodeCached_cache_wf afs _ hN
              (getFunctionNodeCached_cache_wf afs c hN hC _ _ _) _ _ _
        · exact getFunctionNodeCached_cache_wf afs c hN hC _ _ _
      · exact getFunctionNodeCached_cache_wf afs c hN hC _ _ _
  · split
    · exact processFieldExprReturnType_cache_wf fuel selfNs afs vm func c hN hC
    · exact hC

/-- When the structural criterion holds on a well-formed `function`
child, the resolved target name is non-empty. -/
theorem invokeTargetName_ne (fuel : Nat) (selfNs : String)
    (afs : List FunctionDefinition) (vm : List (String × String))
    (func : Node) (c : Cache) (hwf : WFNode func) (hN : NamesWF afs)
    (hC : CacheWF c) (hy : funcYields func = true) :
    (invokeTargetName (fuel + 1) selfNs afs vm func c).1 ≠ "" := by
  have htr : truthy func.text = true := hwf.text_truthy
  cases hcont : ["identifier", "qualified_identifier",
      "template_function"].contains func.kind with
  | true =>
    unfold invokeTargetName
    rw [if_pos (by rw [hcont, htr]; rfl)]
    split
    next m heq => exact getFunctionNodeCached_name_wf afs c hN hC _ _ _ m heq
    next =>
      split
      next nameNode hnn =>
        split
        · split
          next m2 heq2 =>
            exact getFunctionNodeCached_name_wf afs _ hN
              (getFunctionNodeCached_cache_wf afs c hN hC _ _ _) _ _ _ m2 heq2
          next => exact textStr_ne_empty htr
        · exact textStr_ne_empty htr
      next => exact textStr_ne_empty htr
  | false =>
    unfold funcYields at hy
    rw [hcont, if_neg Bool.false_ne_true] at hy
    cases hfe : (func.kind == "field_expression") with
    | false => rw [hfe, if_neg Bool.false_ne_true] at hy; cases hy
    | true =>
      rw [hfe, if_pos rfl] at hy
      cases ha : func.childByField "argument" with
      | none =>
        rw [ha] at hy
        cases hfld : func.childByField "field" with
        | none => rw [hfld] at hy; cases hy
        | some fld => rw [hfld] at hy; cases hy
      | some arg =>
        rw [ha] at hy
        cases hfld : func.childByField "field" with
        | none => rw [hfld] at hy; cases hy
        | some fld =>
          rw [hfld] at hy
          have hy' : (!(arg.kind == "call_expression")) = true := hy
          have hnc : (arg.kind == "call_expression") = false := by
            simpa using hy'
          unfold invokeTargetName
          rw [if_neg (by rw [hcont]; exact Bool.false_ne_true), if_pos hfe]
          exact processFieldExprReturnType_ne_empty fuel selfNs afs vm func c
            ha hfld hwf hnc

/-- When the structural criterion fails, the resolved target is empty. -/
theorem invokeTargetName_empty (fuel : Nat) (selfNs : String)
    (afs : List FunctionDefinition) (vm : List (String × String))
    (func : Node) (c : Cache) (hy : funcYields func = false) :
    (invokeTargetName (fuel + 1) selfNs afs vm func c).1 = "" := by
  unfold funcYields at hy
  cases hcont : ["identifier", "qualified_identifier",
      "template_function"].contains func.kind with
  | true => rw [hcont, if_pos rfl] at hy; cases hy
  | false =>
    rw [hcont, if_neg Bool.false_ne_true] at hy
    unfold invokeTargetName
    rw [if_neg (by rw [hcont]; exact Bool.false_ne_true)]
    cases hfe : (func.kind == "field_expression") with
    | false => rw [if_neg Bool.false_ne_true]
    | true =>
      rw [hfe, if_pos rfl] at hy
      rw [if_pos rfl]
      cases ha : func.childByField "argument" with
      | none =>
        rw [processFieldExprReturnType, ha]
      | some arg =>
        cases hfld : func.childByField "field" with
        | none =>
          rw [processFieldExprReturnType, ha, hfld]
        | some fld =>
          rw [ha, hfld] at hy
          have hy' : (!(arg.kind == "call_expression")) = false := hy
          have hnc : (arg.kind == "call_expression") = true := by
            simpa using hy'
          rw [processFieldExprReturnType, ha, hfld]
          show ((if (arg.kind == "call_expression") = true then
              ((some "", ""), c) else _) : (Option String × String) × Cache).1.2 = ""
          rw [if_pos hnc]

/-- `_process_invoke` preserves cache well-formedness. -/
theorem processInvoke_cache_wf (fuel : Nat) (selfNs : String)
    (afs : List FunctionDefinition) (vm : List (String × String))
    (expr : Node) (c : Cache) (hN : NamesWF afs) (hC : CacheWF c) :
    CacheWF (processInvoke fuel selfNs afs vm expr c).2 := by
  unfold processInvoke
  split
  · exact hC
  · split
    · exact invokeTargetName_cache_wf fuel selfNs afs vm _ c hN hC
    · exact invokeTargetName_cache_wf fuel selfNs afs vm _ c hN hC

/-- On well-formed input, whether `_process_invoke` records a call site
is characterised by the structural criterion — independently of the
variable map and the cache. -/
theorem processInvoke_isEmpty (fuel : Nat) (selfNs : String)
    (afs : List FunctionDefinition) (vm : List (String × String))
    (expr : Node) (c : Cache) (hwf : WFNode expr) (hN : NamesWF afs)
    (hC : CacheWF c) :
    (processInvoke (fuel + 1) selfNs afs vm expr c).1.isEmpty
      = !invokeYields expr := by
  unfold processInvoke invokeYields
  split
  next heq => rfl
  next func heq =>
    have hfwf : WFNode func := hwf.fieldChild heq
    cases hy : funcYields func with
    | true =>
      rw [if_pos (invokeTargetName_ne fuel selfNs afs vm func c hfwf hN hC hy)]
      rfl
    | false =>
      rw [if_neg (fun hne =>
        hne (invokeTargetName_empty fuel selfNs afs vm func c hy))]
      rfl

/-- The call sites recorded by the `declaration` branch do not depend on
the incoming variable map. -/
theorem processDeclaration_fst_vm (fuel : Nat)
    (afs : List FunctionDefinition) (vm vm' : List (String × String))
    (stmt : Node) :
    (processDeclaration fuel afs vm stmt).1
      = (processDeclaration fuel afs vm' stmt).1 := by
  unfold processDeclaration
  repeat' split
  all_goals rfl

/-- Structural criterion: does the node dispatch of `_process_callsites`
record at least one call site on well-formed input?  (The `declaration`
branch is variable-map-independent, so it is probed with the empty
map.) -/
def nodeYields (fuel : Nat) (afs : List FunctionDefinition) (n : Node) :
    Bool :=
  if n.kind == "call_expression" then invokeYields n
  else if n.kind == "new_expression" then
    match n.childByField "type" with
    | some ctrType => truthy ctrType.text
    | none => false
  else if n.kind == "declaration" then
    !(processDeclaration fuel afs [] n).1.isEmpty
  else false

/-- Node dispatch preserves cache well-formedness. -/
theorem processCallsitesNode_cache_wf (fuel : Nat) (selfNs : String)
    (afs : List FunctionDefinition) (stmt : Node)
    (vm : List (String × String)) (c : Cache) (hN : NamesWF afs)
    (hC : CacheWF c) :
    CacheWF (processCallsitesNode fuel selfNs afs stmt vm c).2.2 := by
  unfold processCallsitesNode
  split
  · exact processInvoke_cache_wf fuel selfNs afs vm stmt c hN hC
  · split
    · split
      · split
        · exact hC
        · exact hC
      · exact hC
    · split
      · exact hC
      · exact hC

/-- On well-formed input, whether node dispatch records a call site is
characterised by the structural criterion. -/
theorem processCallsitesNode_isEmpty (fuel : Nat) (selfNs : String)
    (afs : List FunctionDefinition) (stmt : Node)
    (vm : List (String × String)) (c : Cache) (hwf : WFNode stmt)
    (hN : NamesWF afs) (hC : CacheWF c) :
    (processCallsitesNode (fuel + 1) selfNs afs stmt vm c).1.isEmpty
      = !nodeYields (fuel + 1) afs stmt := by
  unfold processCallsitesNode nodeYields
  split
  · exact processInvoke_isEmpty fuel selfNs afs vm stmt c hwf hN hC
  · split
    · split
      next ctrType heq => cases htr : truthy ctrType.text <;> rfl
      next heq => rfl
    · split
      · rw [processDeclaration_fst_vm (fuel + 1) afs vm [] stmt]
        rw [Bool.not_not]
      · rfl

theorem listIsEmpty_append {α : Type} (l1 l2 : List α) :
    (l1 ++ l2).isEmpty = (l1.isEmpty && l2.isEmpty) := by
  cases l1 with
  | nil => rfl
  | cons a t => rfl

/-- Paired fold invariant: a binary relation preserved by the step
function relates the folds from related starting points. -/
theorem foldl_rel {α β : Type} (R : β → β → Prop) (f : β → α → β) :
    ∀ (l : List α) (b b' : β), R b b' →
      (∀ x x', R x x' → ∀ a ∈ l, R (f x a) (f x' a)) →
      R (l.foldl f b) (l.foldl f b')
  | [], _, _, hb, _ => hb
  | a :: t, b, b', hb, hstep =>
    foldl_rel R f t (f b a) (f b' a) (hstep b b' hb a (List.mem_cons_self a t))
      (fun x x' hx a' ha' => hstep x x' hx a' (List.mem_cons_of_mem a ha'))

/-- The full call-site walk preserves cache well-formedness. -/
theorem collectCallsites_cache_wf :
    ∀ (fuel : Nat) (selfNs : String) (afs : List FunctionDefinition)
      (n : Node) (vm : List (String × String)) (c : Cache),
      NamesWF afs → CacheWF c →
      CacheWF (collectCallsites fuel selfNs afs n vm c).2.2 := by
  intro fuel
  induction fuel with
  | zero => intro _ _ _ _ c hN hC; exact hC
  | succ fuel ih =>
    intro selfNs afs n vm c hN hC
    rw [collectCallsites]
    refine foldl_invariant
      (fun acc : List CallTriple × List (String × String) × Cache =>
        CacheWF acc.2.2) _ _ _
      (processCallsitesNode_cache_wf (fuel + 1) selfNs afs n vm c hN hC) ?_
    intro x hx child hch
    exact ih selfNs afs child x.2.1 x.2.2 hN hx

/-- On a well-formed tree, whether the full walk collects any call site
does not depend on the incoming variable map or resolution cache. -/
theorem collectCallsites_isEmpty :
    ∀ (fuel : Nat) (selfNs : String) (afs : List FunctionDefinition)
      (n : Node) (vm vm' : List (String × String)) (c c' : Cache),
      NamesWF afs → CacheWF c → CacheWF c' → WFNode n →
      (collectCallsites fuel selfNs afs n vm c).1.isEmpty
        = (collectCallsites fuel selfNs afs n vm' c').1.isEmpty := by
  intro fuel
  induction fuel with
  | zero => intro _ _ _ _ _ _ _ _ _ _ _; rfl
  | succ fuel ih =>
    intro selfNs afs n vm vm' c c' hN hC hC' hwf
    rw [collectCallsites, collectCallsites]
    refine (foldl_rel
      (fun x x' : List CallTriple × List (String × String) × Cache =>
        x.1.isEmpty = x'.1.isEmpty ∧ CacheWF x.2.2 ∧ CacheWF x'.2.2)
      _ n.children
      (processCallsitesNode (fuel + 1) selfNs afs n vm c)
      (processCallsitesNode (fuel + 1) selfNs afs n vm' c')
      ⟨?_, ?_, ?_⟩ ?_).1
    · rw [processCallsitesNode_isEmpty fuel selfNs afs n vm c hwf hN hC,
        processCallsitesNode_isEmpty fuel selfNs afs n vm' c' hwf hN hC']
    · exact processCallsitesNode_cache_wf (fuel + 1) selfNs afs n vm c hN hC
    · exact processCallsitesNode_cache_wf (fuel + 1) selfNs afs n vm' c' hN hC'
    · intro x x' hx child hch
      refine ⟨?_, ?_, ?_⟩
      · show (x.1 ++ (collectCallsites fuel selfNs afs child x.2.1 x.2.2).1).isEmpty
          = (x'.1 ++ (collectCallsites fuel selfNs afs child x'.2.1 x'.2.2).1).isEmpty
        rw [listIsEmpty_append, listIsEmpty_append, hx.1,
          ih selfNs afs child x.2.1 x'.2.1 x.2.2 x'.2.2 hN hx.2.1 hx.2.2
            (hwf.child hch)]
      · exact collectCallsites_cache_wf fuel selfNs afs child x.2.1 x.2.2 hN hx.2.1
      · exact collectCallsites_cache_wf fuel selfNs afs child x'.2.1 x'.2.2 hN hx.2.2

theorem listIsEmpty_true_iff {α : Type} (l : List α) :
    l.isEmpty = true ↔ l = [] := by
  cases l with
  | nil => simp
  | cons a t => simp

theorem listIsEmpty_eq_false {α : Type} {l : List α} (h : l ≠ []) :
    l.isEmpty = false := by
  cases l with
  | nil => exact absurd rfl h
  | cons a t => rfl

/-- A non-empty cached base list short-circuits the base step. -/
theorem extractCallsitesBase_of_nonempty (fuel : Nat)
    (afs : List FunctionDefinition) (f : FunctionDefinition) (cache : Cache)
    (h : f.base_callsites.isEmpty = false) :
    extractCallsitesBase fuel afs f cache = (f, cache) := by
  unfold extractCallsitesBase
  rw [h]
  rfl

/-- The base step never touches the detailed list. -/
theorem extractCallsitesBase_fst_detailed (fuel : Nat)
    (afs : List FunctionDefinition) (f : FunctionDefinition) (cache : Cache) :
    (extractCallsitesBase fuel afs f cache).1.detailed_callsites
      = f.detailed_callsites := by
  unfold extractCallsitesBase
  split <;> rfl

/-- The base step never touches the scope. -/
theorem extractCallsitesBase_fst_ns (fuel : Nat)
    (afs : List FunctionDefinition) (f : FunctionDefinition) (cache : Cache) :
    (extractCallsitesBase fuel afs f cache).1.namespace_or_class
      = f.namespace_or_class := by
  unfold extractCallsitesBase
  split <;> rfl

/-- The base step never touches the root node. -/
theorem extractCallsitesBase_fst_root (fuel : Nat)
    (afs : List FunctionDefinition) (f : FunctionDefinition) (cache : Cache) :
    (extractCallsitesBase fuel afs f cache).1.root = f.root := by
  unfold extractCallsitesBase
  split <;> rfl

/-- On an uncached function, the base step returns the walk's cache. -/
theorem extractCallsitesBase_snd_of_empty (fuel : Nat)
    (afs : List FunctionDefinition) (f : FunctionDefinition) (cache : Cache)
    (h : f.base_callsites = []) :
    (extractCallsitesBase fuel afs f cache).2
      = (collectCallsites fuel f.namespace_or_class afs f.root
          f.var_map cache).2.2 := by
  unfold extractCallsitesBase
  rw [h]
  rfl

/-- The detailed step never touches the scope. -/
theorem extractCallsitesDetailed_ns (f : FunctionDefinition) :
    (extractCallsitesDetailed f).namespace_or_class
      = f.namespace_or_class := by
  unfold extractCallsitesDetailed
  split <;> rfl

/-- The detailed step never touches the root node. -/
theorem extractCallsitesDetailed_root (f : FunctionDefinition) :
    (extractCallsitesDetailed f).root = f.root := by
  unfold extractCallsitesDetailed
  split <;> rfl

/-- With an empty base list, the detailed step leaves the detailed list
unchanged (an empty projection replaces an empty list). -/
theorem extractCallsitesDetailed_detailed_of_base_nil
    (f : FunctionDefinition) (h : f.base_callsites = []) :
    (extractCallsitesDetailed f).detailed_callsites
      = f.detailed_callsites := by
  unfold extractCallsitesDetailed
  split
  next hd =>
    show f.base_callsites.map _ = f.detailed_callsites
    rw [h, (listIsEmpty_true_iff _).mp hd]
    rfl
  next => rfl

/-- A non-empty cached detailed list short-circuits the detailed step. -/
theorem extractCallsitesDetailed_detailed_of_ne (f : FunctionDefinition)
    (h : f.detailed_callsites ≠ []) :
    (extractCallsitesDetailed f).detailed_callsites
      = f.detailed_callsites := by
  unfold extractCallsitesDetailed
  rw [if_neg (fun hh => h ((listIsEmpty_true_iff _).mp hh))]

/-- The detailed step of a function with call sites yields a non-empty
detailed list. -/
theorem extractCallsitesDetailed_detailed_ne_of_base_ne
    (f : FunctionDefinition) (h : f.base_callsites ≠ []) :
    (extractCallsitesDetailed f).detailed_callsites ≠ [] := by
  unfold extractCallsitesDetailed
  split
  next hd =>
    show f.base_callsites.map _ ≠ []
    intro hmap
    exact h (List.map_eq_nil_iff.mp hmap)
  next hd =>
    show f.detailed_callsites ≠ []
    intro hnil
    exact hd (by rw [hnil]; rfl)

/-- The sorted deduplicated projection is empty exactly for an empty
triple list. -/
theorem finalize_eq_nil_iff (t : List CallTriple) :
    ((List.insertionSort (fun a b : CallTriple => a.2.1 ≤ b.2.1)
      t.dedup).map (fun x : CallTriple => (x.1, x.2.2))) = [] ↔ t = [] := by
  rw [List.map_eq_nil_iff]
  constructor
  · intro h
    have hp := List.perm_insertionSort
      (fun a b : CallTriple => a.2.1 ≤ b.2.1) t.dedup
    rw [h] at hp
    exact (List.dedup_eq_nil t).mp hp.symm.eq_nil
  · intro h
    subst h
    rfl

/-- On a function with non-empty cached lists, `extract_callsites` is a
pure read. -/
theorem extractCallsites_of_base_ne (fuel : Nat)
    (afs : List FunctionDefinition) (g : FunctionDefinition) (cc : Cache)
    (hb : g.base_callsites ≠ []) (hd : g.detailed_callsites ≠ []) :
    (extractCallsites fuel afs g cc).1 = g ∧
    (extractCallsites fuel afs g cc).2 = cc := by
  have hid : extractCallsitesBase fuel afs g cc = (g, cc) :=
    extractCallsitesBase_of_nonempty fuel afs g cc (listIsEmpty_eq_false hb)
  constructor
  · show extractCallsitesDetailed (extractCallsitesBase fuel afs g cc).1 = g
    rw [hid]
    show extractCallsitesDetailed g = g
    unfold extractCallsitesDetailed
    rw [if_neg (fun hh => hd ((listIsEmpty_true_iff _).mp hh))]
  · show (extractCallsitesBase fuel afs g cc).2 = cc
    rw [hid]

/-- C7: call-site extraction is idempotent on well-formed parser output
(every node carries non-empty text, template-method nodes have a named
`name` field, and all known function names are non-empty): invoking
`extract_callsites` a second time returns the base and detailed
call-site lists of the first invocation unchanged — a non-empty cached
base list short-circuits recomputation, and when the first invocation
collected nothing the recollection is empty again. -/
theorem c7_theorem (fuel : Nat) (afs : List FunctionDefinition)
    (f : FunctionDefinition) (cache : Cache) (hwf : WFNode f.root)
    (hN : NamesWF afs) (hC : CacheWF cache) :
    (extractCallsites fuel afs (extractCallsites fuel afs f cache).1
        (extractCallsites fuel afs f cache).2).1.base_callsites
      = (extractCallsites fuel afs f cache).1.base_callsites ∧
    (extractCallsites fuel afs (extractCallsites fuel afs f cache).1
        (extractCallsites fuel afs f cache).2).1.detailed_callsites
      = (extractCallsites fuel afs f cache).1.detailed_callsites := by
  by_cases hb : (extractCallsites fuel afs f cache).1.base_callsites = []
  case neg =>
    have hb1 : (extractCallsitesBase fuel afs f cache).1.base_callsites ≠ [] := by
      intro h0
      exact hb (by
        show (extractCallsitesDetailed
          (extractCallsitesBase fuel afs f cache).1).base_callsites = []
        rw [extractCallsitesDetailed_base]
        exact h0)
    have hd : (extractCallsites fuel afs f cache).1.detailed_callsites ≠ [] := by
      show (extractCallsitesDetailed
        (extractCallsitesBase fuel afs f cache).1).detailed_callsites ≠ []
      exact extractCallsitesDetailed_detailed_ne_of_base_ne _ hb1
    have hh := extractCallsites_of_base_ne fuel afs
      (extractCallsites fuel afs f cache).1
      (extractCallsites fuel afs f cache).2 hb hd
    exact ⟨congrArg FunctionDefinition.base_callsites hh.1,
      congrArg FunctionDefinition.detailed_callsites hh.1⟩
  case pos =>
    have hfb : f.base_callsites = [] := by
      by_contra hfb
      have hid : extractCallsitesBase fuel afs f cache = (f, cache) :=
        extractCallsitesBase_of_nonempty fuel afs f cache
          (listIsEmpty_eq_false hfb)
      apply hfb
      have hb' : (extractCallsitesDetailed
          (extractCallsitesBase fuel afs f cache).1).base_callsites = [] := hb
      rw [hid, extractCallsitesDetailed_base] at hb'
      exact hb'
    have ht1 : (collectCallsites fuel f.namespace_or_class afs f.root
        f.var_map cache).1 = [] := by
      have hb' : (extractCallsitesDetailed
          (extractCallsitesBase fuel afs f cache).1).base_callsites = [] := hb
      rw [extractCallsitesDetailed_base,
        extractCallsitesBase_of_empty fuel afs f cache hfb] at hb'
      exact (finalize_eq_nil_iff _).mp hb'
    have hCwf : CacheWF (extractCallsites fuel afs f cache).2 := by
      show CacheWF (extractCallsitesBase fuel afs f cache).2
      rw [extractCallsitesBase_snd_of_empty fuel afs f cache hfb]
      exact collectCallsites_cache_wf fuel f.namespace_or_class afs f.root
        f.var_map cache hN hC
    have hgns : (extractCallsites fuel afs f cache).1.namespace_or_class
        = f.namespace_or_class := by
      show (extractCallsitesDetailed
        (extractCallsitesBase fuel afs f cache).1).namespace_or_class = _
      rw [extractCallsitesDetailed_ns, extractCallsitesBase_fst_ns]
    have hgroot : (extractCallsites fuel afs f cache).1.root = f.root := by
      show (extractCallsitesDetailed
        (extractCallsitesBase fuel afs f cache).1).root = _
      rw [extractCallsitesDetailed_root, extractCallsitesBase_fst_root]
    have ht2 : (collectCallsites fuel
        (extractCallsites fuel afs f cache).1.namespace_or_class afs
        (extractCallsites fuel afs f cache).1.root
        (extractCallsites fuel afs f cache).1.var_map
        (extractCallsites fuel afs f cache).2).1 = [] := by
      rw [hgns, hgroot]
      refine (listIsEmpty_true_iff _).mp ?_
      rw [collectCallsites_isEmpty fuel f.namespace_or_class afs f.root
        (extractCallsites fuel afs f cache).1.var_map f.var_map
        (extractCallsites fuel afs f cache).2 cache hN hCwf hC hwf]
      rw [ht1]
      rfl
    have hbase2 : (extractCallsitesBase fuel afs
        (extractCallsites fuel afs f cache).1
        (extractCallsites fuel afs f cache).2).1.base_callsites = [] := by
      rw [extractCallsitesBase_of_empty fuel afs _ _ hb]
      rw [ht2]
      rfl
    constructor
    · show (extractCallsitesDetailed (extractCallsitesBase fuel afs
          (extractCallsites fuel afs f cache).1
          (extractCallsites fuel afs f cache).2).1).base_callsites = _
      rw [extractCallsitesDetailed_base, hbase2, hb]
    · show (extractCallsitesDetailed (extractCallsitesBase fuel afs
          (extractCallsites fuel afs f cache).1
          (extractCallsites fuel afs f cache).2).1).detailed_callsites = _
      rw [extractCallsitesDetailed_detailed_of_base_nil _ hbase2]
      rw [extractCallsitesBase_fst_detailed]

/-- C7 (witness): idempotence at the concrete function
`void a(){ b(); }` with an empty project list and a fresh cache. -/
theorem c7_theorem_witness :
    (extractCallsites 16 []
        (extractCallsites 16 [] (initFD funcA "f.c" "") []).1
        (extractCallsites 16 [] (initFD funcA "f.c" "") []).2).1.base_callsites
      = (extractCallsites 16 [] (initFD funcA "f.c" "") []).1.base_callsites ∧
    (extractCallsites 16 []
        (extractCallsites 16 [] (initFD funcA "f.c" "") []).1
        (extractCallsites 16 [] (initFD funcA "f.c" "") []).2).1.detailed_callsites
      = (extractCallsites 16 [] (initFD funcA "f.c" "") []).1.detailed_callsites :=
  c7_theorem 16 [] (initFD funcA "f.c" "") []
    (wfCheck_sound 8 funcA (by decide))
    (fun g hg => absurd hg (List.not_mem_nil g))
    (fun kv hkv => absurd hkv (List.not_mem_nil kv))

/-- C8: `generate_report` always finishes by clearing the session-scoped
name-resolution cache — for every project state and incoming cache
(memoized or not), the cache after report generation is empty, so no
resolution entries survive into a subsequent project's analysis. -/
theorem c8_theorem (fuel : Nat) (p : CppProject) (cache : Cache) :
    (generateReport fuel p cache).2.2 = [] := by
  unfold generateReport
  split <;> rfl

end FIC
